import Mathlib

/-!
# Pty console: master handle, terminal attributes and window size

A shallow embedding of `console_unix.go` (the `master` console and the two
constructors `NewPty` / `NewPtyFromFile`) and of `tc_darwin.go`
(`ptsname`, `unlockpt`).

Go code is stateful; here every function takes the `World` (the Go heap
holding the `master` structs and the `File` objects, together with the
kernel objects behind the descriptors) and, when it can change it, returns
the new `World`.  A Go result list `(T, error)` is a Lean tuple whose last
component is `Option Error` (`none` is Go's `nil` error).

Machine integers: flags are `uint32`/`uint64`, window dimensions `uint16`.
The only arithmetic the code performs on them is `|` and `&^`, which never
leave the width of their operands, so they are embedded as `Nat` without a
modulus.
-/

namespace PtyConsole

/-! ## Values -/

/-- Go `error` values that occur: `os.ErrClosed` (use of a closed `File`),
`io.EOF`, and kernel error numbers (`syscall.Errno`). -/
inductive Error where
  | ErrClosed
  | EOF
  | Errno (code : Nat)
deriving DecidableEq, Repr

/-- Kernel error number: no such file or directory. -/
def ENOENT : Error := .Errno 2
/-- Kernel error number: bad file descriptor. -/
def EBADF : Error := .Errno 9
/-- Kernel error number: invalid argument. -/
def EINVAL : Error := .Errno 22
/-- Kernel error number: not a terminal. -/
def ENOTTY : Error := .Errno 25

/-- The closed-handle errors of the spec's taxonomy: what an operation on a
closed handle reports, either from the `File` itself (`os.ErrClosed`) or
from the kernel for the invalid descriptor (`EBADF`). -/
def Error.isClosedHandle (e : Error) : Bool :=
  decide (e = Error.ErrClosed ∨ e = EBADF)

/-- The terminal attribute block `unix.Termios` (field list of
golang.org/x/sys/unix; the control characters `Cc` as a list of bytes). -/
structure Termios where
  Iflag : Nat
  Oflag : Nat
  Cflag : Nat
  Lflag : Nat
  Line : Nat
  Cc : List Nat
  Ispeed : Nat
  Ospeed : Nat
deriving DecidableEq, Repr

/-- Go's zero value `unix.Termios{}`. -/
def Termios.zero : Termios :=
  { Iflag := 0, Oflag := 0, Cflag := 0, Lflag := 0, Line := 0,
    Cc := List.replicate 19 0, Ispeed := 0, Ospeed := 0 }

/-- The flag `unix.OPOST` of `Oflag` (output post-processing), bit 0. -/
def OPOST : Nat := 0x1

/-- The flag `unix.ECHO` of `Lflag` (local echo), bit 3. -/
def ECHO : Nat := 0x8

/-- Go's bit-clear operator `x &^ y`: the bits of `x` that are not bits of
`y`, computed as `x` with its bits common with `y` flipped off. -/
def andNot (x y : Nat) : Nat :=
  x ^^^ (x &&& y)

/-- Modelled from the spec: the type `WinSize` (declared in `console.go`,
which is not among the sources): "a value type `{ height: uint16, width:
uint16 }` representing terminal rows/columns". -/
structure WinSize where
  Height : Nat
  Width : Nat
deriving DecidableEq, Repr

/-- The kernel's window-size record `unix.Winsize`: rows, columns and the
two pixel-size fields the console does not interpret. -/
structure Winsize where
  Row : Nat
  Col : Nat
  Xpixel : Nat
  Ypixel : Nat
deriving DecidableEq, Repr

/-! ## The world: Go heap and kernel objects -/

/-- A `File` value is a reference to a file object of the world. -/
abbrev File := Nat

/-- A `Console` value is a reference to a `master` struct of the Go heap
(the `Console` interface has the single implementation `*master`). -/
abbrev Console := Nat

/-- The terminal line behind a descriptor: its live attribute block, its
window size, and which arguments the driver accepts for the two set
requests. -/
structure Term where
  attr : Termios
  size : Winsize
  acceptsAttr : Termios → Bool
  acceptsSize : Winsize → Bool

/-- A file object: the state of the Go `File` (name, closed or not) and of
the kernel object it refers to.  `term` is `none` when the object is not a
terminal; `ptn` is the number the pty-name request reports (`none` when the
request is refused); `unlockable` says whether the unlock request is
accepted and `locked` whether the slave is still locked; `rx` are the bytes
ready to be read and `tx` the bytes written so far. -/
structure FileObj where
  name : String
  closed : Bool
  term : Option Term
  ptn : Option Int
  unlockable : Bool
  locked : Bool
  rx : List Nat
  tx : List Nat

/-- The struct `master` of `console_unix.go`: the wrapped file and the
attribute block saved at construction (`nil` is `none`). -/
structure master where
  f : File
  original : Option Termios
deriving DecidableEq, Repr

/-- A state-changing request issued to the kernel, recorded whether or not
the kernel accepted it. -/
inductive Commit where
  | attr (fd : Nat) (t : Termios)
  | winsz (fd : Nat) (ws : Winsize)
  | unlock (fd : Nat)
deriving DecidableEq, Repr

/-- The whole state.  `files` holds the file objects by reference (a
reference that was never opened holds a closed object); `heap` holds the
`master` structs by address and `brk` is the next free address; `ptmx` is
the object the pty-cloning device hands out next (`none`: the device cannot
be opened) and `nextFd` the reference it will get; `commits` is the record
of the set requests issued so far. -/
structure World where
  files : Nat → FileObj
  heap : Nat → master
  brk : Nat
  ptmx : Option FileObj
  nextFd : Nat
  commits : List Commit

/-! ## The `File` interface (behaviour of `os.File`) -/

/-- The descriptor value of a closed file: `^uintptr(0)`. -/
def badFd : Nat := 2 ^ 64 - 1

/-- Method `Fd` of a file: the descriptor number (the reference itself), or
the invalid descriptor once the file is closed. -/
def File.Fd (f : File) (w : World) : Nat :=
  if (w.files f).closed then badFd else f

/-- Method `Name` of a file. -/
def File.Name (f : File) (w : World) : String :=
  (w.files f).name

/-- Method `Read` of a file with a buffer of `n` bytes: the bytes read,
their count and the error.  A closed file reports `ErrClosed`; an empty
stream is the end of the stream (the peer has closed). -/
def File.Read (f : File) (n : Nat) (w : World) : (List Nat × Nat × Option Error) × World :=
  let o := w.files f
  if o.closed then (([], 0, some Error.ErrClosed), w)
  else if n = 0 then (([], 0, none), w)
  else if o.rx = [] then (([], 0, some Error.EOF), w)
  else
    ((o.rx.take n, (o.rx.take n).length, none),
     { w with files := Function.update w.files f { o with rx := o.rx.drop n } })

/-- Method `Write` of a file. -/
def File.Write (f : File) (b : List Nat) (w : World) : (Nat × Option Error) × World :=
  let o := w.files f
  if o.closed then ((0, some Error.ErrClosed), w)
  else ((b.length, none), { w with files := Function.update w.files f { o with tx := o.tx ++ b } })

/-- Method `Close` of a file. -/
def File.Close (f : File) (w : World) : Option Error × World :=
  let o := w.files f
  if o.closed then (some Error.ErrClosed, w)
  else (none, { w with files := Function.update w.files f { o with closed := true } })

/-! ## Kernel requests (golang.org/x/sys/unix) -/

/-- The open file object a descriptor refers to, if any.  The invalid
descriptor refers to none. -/
def fdget (fd : Nat) (w : World) : Option FileObj :=
  if fd = badFd then none
  else if (w.files fd).closed then none
  else some (w.files fd)

/-- The two pty requests of `tc_darwin.go`. -/
inductive Req where
  | TIOCPTYGNAME
  | TIOCPTYUNLK
deriving DecidableEq, Repr

/-- Request `unix.IoctlGetTermios`: read the attribute block. -/
def IoctlGetTermios (fd : Nat) (w : World) : Termios × Option Error :=
  match fdget fd w with
  | none => (Termios.zero, some EBADF)
  | some o =>
    match o.term with
    | none => (Termios.zero, some ENOTTY)
    | some tm => (tm.attr, none)

/-- Request `unix.IoctlSetTermios`: commit an attribute block.  A refused
request changes no kernel object. -/
def IoctlSetTermios (fd : Nat) (t : Termios) (w : World) : Option Error × World :=
  let w1 := { w with commits := w.commits ++ [Commit.attr fd t] }
  match fdget fd w with
  | none => (some EBADF, w1)
  | some o =>
    match o.term with
    | none => (some ENOTTY, w1)
    | some tm =>
      if tm.acceptsAttr t then
        (none, { w1 with files := Function.update w1.files fd { o with term := some { tm with attr := t } } })
      else (some EINVAL, w1)

/-- Request `unix.IoctlGetWinsize`: read the window size. -/
def IoctlGetWinsize (fd : Nat) (w : World) : Winsize × Option Error :=
  match fdget fd w with
  | none => (⟨0, 0, 0, 0⟩, some EBADF)
  | some o =>
    match o.term with
    | none => (⟨0, 0, 0, 0⟩, some ENOTTY)
    | some tm => (tm.size, none)

/-- Request `unix.IoctlSetWinsize`: set the window size.  A refused request
changes no kernel object. -/
def IoctlSetWinsize (fd : Nat) (uws : Winsize) (w : World) : Option Error × World :=
  let w1 := { w with commits := w.commits ++ [Commit.winsz fd uws] }
  match fdget fd w with
  | none => (some EBADF, w1)
  | some o =>
    match o.term with
    | none => (some ENOTTY, w1)
    | some tm =>
      if tm.acceptsSize uws then
        (none, { w1 with files := Function.update w1.files fd { o with term := some { tm with size := uws } } })
      else (some EINVAL, w1)

/-- Request `unix.IoctlGetInt`; of the requests in use only the pty-name
request returns an integer. -/
def IoctlGetInt (fd : Nat) (req : Req) (w : World) : Int × Option Error :=
  match fdget fd w with
  | none => (0, some EBADF)
  | some o =>
    match req with
    | Req.TIOCPTYGNAME =>
      match o.ptn with
      | none => (0, some ENOTTY)
      | some n => (n, none)
    | Req.TIOCPTYUNLK => (0, some EINVAL)

/-- Request `unix.IoctlSetPointerInt`; of the requests in use only the
unlock request takes an integer through a pointer. -/
def IoctlSetPointerInt (fd : Nat) (req : Req) (_value : Int) (w : World) : Option Error × World :=
  match req with
  | Req.TIOCPTYUNLK =>
    let w1 := { w with commits := w.commits ++ [Commit.unlock fd] }
    match fdget fd w with
    | none => (some EBADF, w1)
    | some o =>
      if o.unlockable then
        (none, { w1 with files := Function.update w1.files fd { o with locked := false } })
      else (some ENOTTY, w1)
  | Req.TIOCPTYGNAME => (some EINVAL, w)

/-! ## The terminal-control helpers (`tc_unix.go`, not among the sources) -/

/-- Modelled from the spec: `tcget`, the "get attributes" operation of the
"terminal attribute ioctl pair"; it stores the block read through the
pointer `p` and leaves the pointee alone when the read fails. -/
def tcget (fd : Nat) (p : Termios) (w : World) : Termios × Option Error :=
  match IoctlGetTermios fd w with
  | (_, some err) => (p, some err)
  | (t, none) => (t, none)

/-- Modelled from the spec: `tcset`, the "set attributes" operation of the
"terminal attribute ioctl pair"; the block is data "round-tripped through
these two operations". -/
def tcset (fd : Nat) (p : Termios) (w : World) : Option Error × World :=
  IoctlSetTermios fd p w

/-- Modelled from the spec: `tcgwinsz`, the "get window size" operation,
"exchanging a `{height, width}` pair (plus OS-reserved pixel-size fields
which the core does not interpret)". -/
def tcgwinsz (fd : Nat) (w : World) : WinSize × Option Error :=
  match IoctlGetWinsize fd w with
  | (_, some err) => (⟨0, 0⟩, some err)
  | (uws, none) => (⟨uws.Row, uws.Col⟩, none)

/-- Modelled from the spec: `tcswinsz`, the "set window size" operation,
"exchanging a `{height, width}` pair (plus OS-reserved pixel-size fields
which the core does not interpret)". -/
def tcswinsz (fd : Nat) (ws : WinSize) (w : World) : Option Error × World :=
  IoctlSetWinsize fd ⟨ws.Height, ws.Width, 0, 0⟩ w

/-- Modelled from the spec: `openpt`, which "opens a fresh master pty
device from the OS's pty-cloning device" and fails with an allocation error
"if the cloning device cannot be opened". -/
def openpt (w : World) : (File × Option Error) × World :=
  match w.ptmx with
  | none => ((0, some ENOENT), w)
  | some o =>
    ((w.nextFd, none),
     { w with files := Function.update w.files w.nextFd { o with closed := false },
              nextFd := w.nextFd + 1 })

/-! ## `tc_darwin.go` -/

/-- Function `unlockpt` of `tc_darwin.go`. -/
def unlockpt (f : File) (w : World) : Option Error × World :=
  IoctlSetPointerInt (File.Fd f w) Req.TIOCPTYUNLK 0 w

/-- Function `ptsname` of `tc_darwin.go`. -/
def ptsname (f : File) (w : World) : String × Option Error :=
  match IoctlGetInt (File.Fd f w) Req.TIOCPTYGNAME w with
  | (_, some err) => ("", some err)
  | (n, none) => ("/dev/pts/" ++ toString n, none)

/-! ## `console_unix.go`: the methods of `master` -/

/-- Method `Read`. -/
def master.Read (m : Console) (n : Nat) (w : World) : (List Nat × Nat × Option Error) × World :=
  File.Read (w.heap m).f n w

/-- Method `Write`. -/
def master.Write (m : Console) (b : List Nat) (w : World) : (Nat × Option Error) × World :=
  File.Write (w.heap m).f b w

/-- Method `Close`. -/
def master.Close (m : Console) (w : World) : Option Error × World :=
  File.Close (w.heap m).f w

/-- Method `Resize`. -/
def master.Resize (m : Console) (ws : WinSize) (w : World) : Option Error × World :=
  tcswinsz (File.Fd (w.heap m).f w) ws w

/-- Method `Size`. -/
def master.Size (m : Console) (w : World) : WinSize × Option Error :=
  tcgwinsz (File.Fd (w.heap m).f w) w

/-- Method `ResizeFrom`. -/
def master.ResizeFrom (m : Console) (c : Console) (w : World) : Option Error × World :=
  match master.Size c w with
  | (_, some err) => (some err, w)
  | (ws, none) => master.Resize m ws w

/-- Method `Reset`. -/
def master.Reset (m : Console) (w : World) : Option Error × World :=
  match (w.heap m).original with
  | none => (none, w)
  | some original => tcset (File.Fd (w.heap m).f w) original w

/-- Method `getCurrent`. -/
def master.getCurrent (m : Console) (w : World) : Termios × Option Error :=
  match tcget (File.Fd (w.heap m).f w) Termios.zero w with
  | (_, some err) => (Termios.zero, some err)
  | (termios, none) => (termios, none)

/-- Method `SetRaw`.  The raw-mode transformation `cfmakeraw` (of
`tc_unix.go`, not among the sources) is a parameter. -/
def master.SetRaw (cfmakeraw : Termios → Termios) (m : Console) (w : World) : Option Error × World :=
  match master.getCurrent m w with
  | (_, some err) => (some err, w)
  | (rawState, none) =>
    let rawState := cfmakeraw rawState
    let rawState := { rawState with Oflag := rawState.Oflag ||| OPOST }
    tcset (File.Fd (w.heap m).f w) rawState w

/-- Method `DisableEcho`. -/
def master.DisableEcho (m : Console) (w : World) : Option Error × World :=
  match master.getCurrent m w with
  | (_, some err) => (some err, w)
  | (rawState, none) =>
    let rawState := { rawState with Lflag := andNot rawState.Lflag ECHO }
    tcset (File.Fd (w.heap m).f w) rawState w

/-- Method `Fd`. -/
def master.Fd (m : Console) (w : World) : Nat :=
  File.Fd (w.heap m).f w

/-- Method `Name`. -/
def master.Name (m : Console) (w : World) : String :=
  File.Name (w.heap m).f w

/-- Function `newMaster`: allocate the struct, read the live attribute
block, store it as `original`. -/
def newMaster (f : File) (w : World) : (Option Console × Option Error) × World :=
  let m := w.brk
  let w := { w with heap := Function.update w.heap m { f := f, original := none },
                    brk := w.brk + 1 }
  match master.getCurrent m w with
  | (_, some err) => ((none, some err), w)
  | (t, none) =>
    ((some m, none),
     { w with heap := Function.update w.heap m { w.heap m with original := some t } })

/-- Function `NewPtyFromFile`. -/
def NewPtyFromFile (f : File) (w : World) : (Option Console × String × Option Error) × World :=
  match ptsname f w with
  | (_, some err) => ((none, "", some err), w)
  | (slave, none) =>
    match unlockpt f w with
    | (some err, w) => ((none, "", some err), w)
    | (none, w) =>
      match newMaster f w with
      | ((_, some err), w) => ((none, "", some err), w)
      | ((m, none), w) => ((m, slave, none), w)

/-- Function `NewPty`. -/
def NewPty (w : World) : (Option Console × String × Option Error) × World :=
  match openpt w with
  | ((_, some err), w) => ((none, "", some err), w)
  | ((f, none), w) => NewPtyFromFile f w

/-! ## Calls on a console -/

/-- A call of one of the methods of the `Console` interface. -/
inductive Call where
  | Read (n : Nat)
  | Write (b : List Nat)
  | Close
  | Resize (ws : WinSize)
  | ResizeFrom (c : Console)
  | Reset
  | SetRaw
  | DisableEcho
  | Size
  | Fd
  | Name

/-- The error a call on the console `m` returns (`none` for the two
accessors, which return no error) and the world it leaves. -/
def Call.exec (cfmakeraw : Termios → Termios) (m : Console) : Call → World → Option Error × World
  | Call.Read n, w => ((master.Read m n w).1.2.2, (master.Read m n w).2)
  | Call.Write b, w => ((master.Write m b w).1.2, (master.Write m b w).2)
  | Call.Close, w => master.Close m w
  | Call.Resize ws, w => master.Resize m ws w
  | Call.ResizeFrom c, w => master.ResizeFrom m c w
  | Call.Reset, w => master.Reset m w
  | Call.SetRaw, w => master.SetRaw cfmakeraw m w
  | Call.DisableEcho, w => master.DisableEcho m w
  | Call.Size, w => ((master.Size m w).2, w)
  | Call.Fd, w => (none, w)
  | Call.Name, w => (none, w)

/-- The world after a sequence of calls on the console `m`. -/
def runCalls (cfmakeraw : Termios → Termios) (m : Console) : List Call → World → World
  | [], w => w
  | c :: cs, w => runCalls cfmakeraw m cs (c.exec cfmakeraw m w).2

/-- The shape of a console as a constructor returns it: `newMaster` is the
only place a `master` is built, it returns the struct only after the
attribute read on the file has succeeded, and it stores the block read as
`original`.  So the console has a saved attribute block and its file is a
terminal. -/
def constructed (w : World) (m : Console) : Bool :=
  (w.heap m).original.isSome && (w.files (w.heap m).f).term.isSome

/-! ## Concrete worlds for evaluation -/

/-- A cooked-mode attribute block (the usual defaults of a fresh pty). -/
def cooked : Termios :=
  { Iflag := 0x500, Oflag := 0x5, Cflag := 0xbf, Lflag := 0x8a3b, Line := 0,
    Cc := [3, 28, 127, 21, 4, 0, 1, 0, 17, 19, 26, 0, 18, 15, 23, 22, 0, 0, 0],
    Ispeed := 38400, Ospeed := 38400 }

/-- A sample raw-mode transformation: it clears `OPOST` in `Oflag` and the
echo, canonical-mode, signal and extension bits in `Lflag`. -/
def sampleRaw (t : Termios) : Termios :=
  { t with Oflag := andNot t.Oflag OPOST, Lflag := andNot t.Lflag 0x804b }

/-- A fresh pty master as the cloning device hands it out: 24 rows, 80
columns, slave number 7; the driver refuses window sizes with a dimension
above 4096. -/
def demoPty : FileObj :=
  { name := "/dev/ptmx", closed := false,
    term := some { attr := cooked, size := ⟨24, 80, 0, 0⟩,
                   acceptsAttr := fun _ => true,
                   acceptsSize := fun u => decide (u.Row ≤ 4096 ∧ u.Col ≤ 4096) },
    ptn := some 7, unlockable := true, locked := true, rx := [116, 101], tx := [] }

/-- An open regular file: not a terminal, not a pty. -/
def demoRegular : FileObj :=
  { name := "/tmp/log", closed := false, term := none, ptn := none,
    unlockable := false, locked := false, rx := [], tx := [] }

/-- A terminal that is not a pty master: the name request is refused. -/
def demoTty : FileObj :=
  { demoPty with name := "/dev/tty1", ptn := none, unlockable := false }

/-- A pty master that answers the name request but refuses the unlock. -/
def demoNoUnlock : FileObj :=
  { demoPty with name := "/dev/ptmx", unlockable := false }

/-- A pty master that answers the name request and unlocks, but on which
the terminal requests are refused. -/
def demoNoTerm : FileObj :=
  { demoPty with name := "/dev/ptmx", term := none }

/-- A closed file object. -/
def demoClosed : FileObj :=
  { name := "", closed := true, term := none, ptn := none,
    unlockable := false, locked := false, rx := [], tx := [] }

/-- A world with nothing open in which the cloning device works. -/
def world0 : World :=
  { files := fun _ => demoClosed, heap := fun _ => ⟨0, none⟩, brk := 0,
    ptmx := some demoPty, nextFd := 3, commits := [] }

/-- A world in which file 3 is a freshly opened pty master and no console
has been constructed yet. -/
def worldOpen : World :=
  { files := fun n => if n = 3 then demoPty else demoClosed, heap := fun _ => ⟨0, none⟩,
    brk := 0, ptmx := some demoPty, nextFd := 4, commits := [] }

/-- The world after `NewPty` in `world0`: the console is at address 0 on
file 3. -/
def world1 : World := (NewPty world0).2

/-- A world with a second console (address 1, file 4) created by `NewPty`. -/
def world2 : World := (NewPty world1).2

/-- A world in which file 5 is an open regular file, file 6 a terminal that
is not a pty master, wrapped by the structs at addresses 2 and 3 (the
first without a saved attribute block). -/
def world3 : World :=
  { world2 with
    files := Function.update (Function.update world2.files 5 demoRegular) 6 demoTty,
    heap := Function.update (Function.update world2.heap 2 ⟨5, none⟩) 3 ⟨6, some cooked⟩,
    brk := 4, nextFd := 7 }

/-- A world with four open files and no console: 5 is a regular file, 6 a
terminal that is not a pty master, 7 a pty master that refuses the unlock, 8
a pty master that is not a terminal. -/
def worldFaulty : World :=
  { files := fun n =>
      if n = 5 then demoRegular else if n = 6 then demoTty
      else if n = 7 then demoNoUnlock else if n = 8 then demoNoTerm else demoClosed,
    heap := fun _ => ⟨0, none⟩, brk := 0, ptmx := some demoPty, nextFd := 9, commits := [] }

/-- A world in which the cloning device hands out an object that refuses
the pty-name request. -/
def worldBadPtmx : World :=
  { world0 with ptmx := some demoTty }

end PtyConsole

namespace PtyConsole

/-! ## Facts about the kernel requests -/

theorem fdget_some {fd : Nat} {w : World} {o : FileObj} (h : fdget fd w = some o) :
    fd ≠ badFd ∧ (w.files fd).closed = false ∧ o = w.files fd := by
  unfold fdget at h
  split at h
  · simp at h
  · split at h
    · simp at h
    · rename_i h1 h2
      simp at h
      exact ⟨h1, by simpa using h2, h.symm⟩

theorem fdget_open {fd : Nat} {w : World} (h1 : fd ≠ badFd) (h2 : (w.files fd).closed = false) :
    fdget fd w = some (w.files fd) := by
  simp [fdget, h1, h2]

theorem fdget_badFd (w : World) : fdget badFd w = none := by
  simp [fdget]

theorem setWinsize_ok {fd : Nat} {u : Winsize} {w : World}
    (h : (IoctlSetWinsize fd u w).1 = none) :
    fd ≠ badFd ∧ (w.files fd).closed = false ∧ ∃ tm, (w.files fd).term = some tm ∧
      (IoctlSetWinsize fd u w).2 =
        { w with commits := w.commits ++ [Commit.winsz fd u],
                 files := Function.update w.files fd
                   { w.files fd with term := some { tm with size := u } } } := by
  unfold IoctlSetWinsize at h ⊢
  cases hg : fdget fd w with
  | none => simp [hg] at h
  | some o =>
    obtain ⟨h1, h2, rfl⟩ := fdget_some hg
    cases ht : (w.files fd).term with
    | none => simp [hg, ht] at h
    | some tm =>
      by_cases ha : tm.acceptsSize u = true
      · exact ⟨h1, h2, tm, rfl, by simp [hg, ht, ha]⟩
      · simp [hg, ht, ha] at h

theorem setWinsize_err {fd : Nat} {u : Winsize} {w : World}
    (h : (IoctlSetWinsize fd u w).1 ≠ none) :
    (IoctlSetWinsize fd u w).2 = { w with commits := w.commits ++ [Commit.winsz fd u] } := by
  unfold IoctlSetWinsize at h ⊢
  cases hg : fdget fd w with
  | none => simp [hg]
  | some o =>
    cases ht : o.term with
    | none => simp [hg, ht]
    | some tm =>
      by_cases ha : tm.acceptsSize u = true
      · simp [hg, ht, ha] at h
      · simp [hg, ht, ha]

theorem setTermios_ok {fd : Nat} {t : Termios} {w : World}
    (h : (IoctlSetTermios fd t w).1 = none) :
    fd ≠ badFd ∧ (w.files fd).closed = false ∧ ∃ tm, (w.files fd).term = some tm ∧
      (IoctlSetTermios fd t w).2 =
        { w with commits := w.commits ++ [Commit.attr fd t],
                 files := Function.update w.files fd
                   { w.files fd with term := some { tm with attr := t } } } := by
  unfold IoctlSetTermios at h ⊢
  cases hg : fdget fd w with
  | none => simp [hg] at h
  | some o =>
    obtain ⟨h1, h2, rfl⟩ := fdget_some hg
    cases ht : (w.files fd).term with
    | none => simp [hg, ht] at h
    | some tm =>
      by_cases ha : tm.acceptsAttr t = true
      · exact ⟨h1, h2, tm, rfl, by simp [hg, ht, ha]⟩
      · simp [hg, ht, ha] at h

theorem setTermios_err {fd : Nat} {t : Termios} {w : World}
    (h : (IoctlSetTermios fd t w).1 ≠ none) :
    (IoctlSetTermios fd t w).2 = { w with commits := w.commits ++ [Commit.attr fd t] } := by
  unfold IoctlSetTermios at h ⊢
  cases hg : fdget fd w with
  | none => simp [hg]
  | some o =>
    cases ht : o.term with
    | none => simp [hg, ht]
    | some tm =>
      by_cases ha : tm.acceptsAttr t = true
      · simp [hg, ht, ha] at h
      · simp [hg, ht, ha]

theorem testBit_andNot (x y i : Nat) :
    (andNot x y).testBit i = (x.testBit i && !y.testBit i) := by
  unfold andNot
  rw [Nat.testBit_xor, Nat.testBit_and]
  cases x.testBit i <;> cases y.testBit i <;> rfl

theorem setWinsize_heap (fd : Nat) (u : Winsize) (w : World) :
    (IoctlSetWinsize fd u w).2.heap = w.heap := by
  by_cases h : (IoctlSetWinsize fd u w).1 = none
  · obtain ⟨_, _, tm, _, hw⟩ := setWinsize_ok h
    rw [hw]
  · rw [setWinsize_err h]

theorem setTermios_heap (fd : Nat) (t : Termios) (w : World) :
    (IoctlSetTermios fd t w).2.heap = w.heap := by
  by_cases h : (IoctlSetTermios fd t w).1 = none
  · obtain ⟨_, _, tm, _, hw⟩ := setTermios_ok h
    rw [hw]
  · rw [setTermios_err h]

theorem setWinsize_closed (fd : Nat) (u : Winsize) (w : World) (g : Nat) :
    ((IoctlSetWinsize fd u w).2.files g).closed = (w.files g).closed := by
  by_cases h : (IoctlSetWinsize fd u w).1 = none
  · obtain ⟨_, _, tm, _, hw⟩ := setWinsize_ok h
    rw [hw]
    by_cases hg : g = fd
    · subst hg; simp
    · simp [Function.update_noteq hg]
  · rw [setWinsize_err h]

theorem setTermios_closed (fd : Nat) (t : Termios) (w : World) (g : Nat) :
    ((IoctlSetTermios fd t w).2.files g).closed = (w.files g).closed := by
  by_cases h : (IoctlSetTermios fd t w).1 = none
  · obtain ⟨_, _, tm, _, hw⟩ := setTermios_ok h
    rw [hw]
    by_cases hg : g = fd
    · subst hg; simp
    · simp [Function.update_noteq hg]
  · rw [setTermios_err h]

theorem Fd_congr {w w' : World} (f : File) (h : (w'.files f).closed = (w.files f).closed) :
    File.Fd f w' = File.Fd f w := by
  simp [File.Fd, h]

theorem Fd_ne_bad {f : File} {w : World} (h : File.Fd f w ≠ badFd) :
    (w.files f).closed = false ∧ File.Fd f w = f := by
  unfold File.Fd at h ⊢
  cases hc : (w.files f).closed <;> simp_all

theorem Fd_closed {f : File} {w : World} (h : (w.files f).closed = true) :
    File.Fd f w = badFd := by
  simp [File.Fd, h]

/-- The window size read on a descriptor, in terms of the file table. -/
theorem getWinsize_eq (fd : Nat) (w : World) :
    IoctlGetWinsize fd w =
      if fd = badFd ∨ (w.files fd).closed = true then (⟨0, 0, 0, 0⟩, some EBADF)
      else match (w.files fd).term with
        | none => (⟨0, 0, 0, 0⟩, some ENOTTY)
        | some tm => (tm.size, none) := by
  unfold IoctlGetWinsize fdget
  by_cases h1 : fd = badFd
  · simp [h1]
  · cases h2 : (w.files fd).closed <;> simp [h1, h2]

/-- The attribute block read on a descriptor, in terms of the file table. -/
theorem getTermios_eq (fd : Nat) (w : World) :
    IoctlGetTermios fd w =
      if fd = badFd ∨ (w.files fd).closed = true then (Termios.zero, some EBADF)
      else match (w.files fd).term with
        | none => (Termios.zero, some ENOTTY)
        | some tm => (tm.attr, none) := by
  unfold IoctlGetTermios fdget
  by_cases h1 : fd = badFd
  · simp [h1]
  · cases h2 : (w.files fd).closed <;> simp [h1, h2]

/-! ## Window size -/

/-- What a successful `Resize` does to the world. -/
theorem Resize_ok {m : Console} {ws : WinSize} {w : World}
    (h : (master.Resize m ws w).1 = none) :
    ((w.heap m).f ≠ badFd ∧ (w.files (w.heap m).f).closed = false) ∧
    ∃ tm, (w.files (w.heap m).f).term = some tm ∧
      (master.Resize m ws w).2 =
        { w with commits := w.commits ++ [Commit.winsz (w.heap m).f ⟨ws.Height, ws.Width, 0, 0⟩],
                 files := Function.update w.files (w.heap m).f
                   { w.files (w.heap m).f with
                     term := some { tm with size := ⟨ws.Height, ws.Width, 0, 0⟩ } } } := by
  unfold master.Resize tcswinsz at h ⊢
  obtain ⟨h1, h2, tm, ht, hw⟩ := setWinsize_ok h
  obtain ⟨hc, hfd⟩ := Fd_ne_bad h1
  rw [hfd] at h1 h2 ht hw
  rw [hfd]
  exact ⟨⟨h1, hc⟩, tm, ht, hw⟩

/-- A failed `Resize` changes neither the file objects nor the heap. -/
theorem Resize_err {m : Console} {ws : WinSize} {w : World}
    (h : (master.Resize m ws w).1 ≠ none) :
    (master.Resize m ws w).2.files = w.files ∧ (master.Resize m ws w).2.heap = w.heap := by
  unfold master.Resize tcswinsz at h ⊢
  rw [setWinsize_err h]
  exact ⟨rfl, rfl⟩

/-- The size a console reports, in terms of the file table. -/
theorem Size_eq (m : Console) (w : World) :
    master.Size m w =
      if (w.heap m).f = badFd ∨ (w.files (w.heap m).f).closed = true then (⟨0, 0⟩, some EBADF)
      else match (w.files (w.heap m).f).term with
        | none => (⟨0, 0⟩, some ENOTTY)
        | some tm => (⟨tm.size.Row, tm.size.Col⟩, none) := by
  unfold master.Size tcgwinsz
  rw [getWinsize_eq]
  cases hc : (w.files (w.heap m).f).closed
  · have hfd : File.Fd (w.heap m).f w = (w.heap m).f := by simp [File.Fd, hc]
    rw [hfd]
    by_cases hb : (w.heap m).f = badFd
    · simp [hb]
    · cases ht : (w.files (w.heap m).f).term <;> simp [hb, hc, ht]
  · simp [Fd_closed hc]

/-- After a successful `m.Resize(ws)`, every console on the same file as
`m` reports `ws`, and every other console reports what it did before. -/
theorem Size_after_Resize (m c : Console) {ws : WinSize} {w : World}
    (h : (master.Resize m ws w).1 = none) :
    master.Size c (master.Resize m ws w).2 =
      if (w.heap c).f = (w.heap m).f then (ws, none) else master.Size c w := by
  obtain ⟨⟨hb, hc⟩, tm, ht, hw⟩ := Resize_ok h
  rw [Size_eq, Size_eq, hw]
  by_cases hf : (w.heap c).f = (w.heap m).f
  · dsimp only
    rw [hf]
    simp [hb, hc]
  · simp [hf, Function.update_noteq hf]

/-- C1: for every master console `m`, every window size `ws` and every
world, if `m.Resize(ws)` returns no error then the immediately following
`m.Size()` returns no error and returns exactly `ws` (same Height, same
Width). -/
theorem resize_size_roundtrip (m : Console) (ws : WinSize) (w : World)
    (h : (master.Resize m ws w).1 = none) :
    master.Size m (master.Resize m ws w).2 = (ws, none) := by
  have := Size_after_Resize m m h
  simpa using this

/-- C1, evaluated on the test: on the console `NewPty` returns in `world0`,
`Resize` to Width 11, Height 10 succeeds and `Size` then returns Width 11,
Height 10. -/
theorem resize_size_roundtrip_witness :
    (NewPty world0).1 = (some 0, "/dev/pts/7", none) ∧
    (master.Resize 0 ⟨10, 11⟩ (NewPty world0).2).1 = none ∧
    master.Size 0 (master.Resize 0 ⟨10, 11⟩ (NewPty world0).2).2 =
      ({ Height := 10, Width := 11 }, none) :=
  ⟨by decide, by decide, resize_size_roundtrip 0 ⟨10, 11⟩ (NewPty world0).2 (by decide)⟩


/-- C5: for every master console `m` and every console `c`: if `c.Size()`
returns an error `e` then `m.ResizeFrom(c)` returns exactly `e` and leaves
the whole world as it was (so no window-size-set request is issued and the
window size of `m` is unchanged); and whenever `m.ResizeFrom(c)` returns an
error, the file objects and the heap are as before the call and `m.Size()`
returns what it returned before. -/
theorem resizeFrom_error_leaves_size (m c : Console) (w : World) :
    (∀ e, (master.Size c w).2 = some e → master.ResizeFrom m c w = (some e, w)) ∧
    ((master.ResizeFrom m c w).1 ≠ none →
      (master.ResizeFrom m c w).2.files = w.files ∧
      (master.ResizeFrom m c w).2.heap = w.heap ∧
      master.Size m (master.ResizeFrom m c w).2 = master.Size m w) := by
  constructor
  · intro e he
    unfold master.ResizeFrom
    cases hs : master.Size c w with
    | mk sz err =>
      rw [hs] at he
      simp at he
      simp [he]
  · intro h
    unfold master.ResizeFrom at h ⊢
    cases hs : master.Size c w with
    | mk sz err =>
      cases err with
      | some e => simp [hs]
      | none =>
        simp only [hs] at h ⊢
        obtain ⟨hf, hh⟩ := Resize_err h
        refine ⟨hf, hh, ?_⟩
        rw [Size_eq, Size_eq, hf, hh]

/-- C5, evaluated: console 2 of `world3` is on a regular file, so its
`Size` fails with `ENOTTY`; `ResizeFrom` on console 0 from it returns that
error and leaves the world alone; and `ResizeFrom` on console 2 from console
0 fails in the set request and console 2 reports the same as before. -/
theorem resizeFrom_error_leaves_size_witness :
    ((master.Size 2 world3).2 = some ENOTTY ∧
      master.ResizeFrom 0 2 world3 = (some ENOTTY, world3)) ∧
    ((master.ResizeFrom 2 0 world3).1 ≠ none ∧
      master.Size 2 (master.ResizeFrom 2 0 world3).2 = master.Size 2 world3) :=
  ⟨⟨by decide, (resizeFrom_error_leaves_size 0 2 world3).1 ENOTTY (by decide)⟩,
   ⟨by decide, ((resizeFrom_error_leaves_size 2 0 world3).2 (by decide)).2.2⟩⟩

/-- C6: for every pair of master consoles `self` and `other` (distinct or
not) and every window size `ws`, if `other.Resize(ws)` succeeds and then
`self.ResizeFrom(other)` succeeds, then `self.Size()` returns exactly `ws`
and `other.Size()` still returns `ws`. -/
theorem resizeFrom_copies_size (self other : Console) (ws : WinSize) (w : World)
    (h1 : (master.Resize other ws w).1 = none)
    (h2 : (master.ResizeFrom self other (master.Resize other ws w).2).1 = none) :
    master.Size self (master.ResizeFrom self other (master.Resize other ws w).2).2 = (ws, none) ∧
    master.Size other (master.ResizeFrom self other (master.Resize other ws w).2).2 = (ws, none) := by
  have hs : master.Size other (master.Resize other ws w).2 = (ws, none) := by
    simpa using Size_after_Resize other other h1
  have hrf : master.ResizeFrom self other (master.Resize other ws w).2 =
      master.Resize self ws (master.Resize other ws w).2 := by
    unfold master.ResizeFrom
    simp [hs]
  rw [hrf] at h2 ⊢
  constructor
  · simpa using Size_after_Resize self self h2
  · rw [Size_after_Resize self other h2, hs]
    simp

/-- C6, evaluated: consoles 0 and 1 of `world2` are two ptys; after
`Resize` of console 1 to 30 rows, 100 columns and `ResizeFrom` on console 0
from console 1, both report 30 rows, 100 columns. -/
theorem resizeFrom_copies_size_witness :
    (master.Resize 1 ⟨30, 100⟩ world2).1 = none ∧
    (master.ResizeFrom 0 1 (master.Resize 1 ⟨30, 100⟩ world2).2).1 = none ∧
    master.Size 0 (master.ResizeFrom 0 1 (master.Resize 1 ⟨30, 100⟩ world2).2).2
      = ({ Height := 30, Width := 100 }, none) ∧
    master.Size 1 (master.ResizeFrom 0 1 (master.Resize 1 ⟨30, 100⟩ world2).2).2
      = ({ Height := 30, Width := 100 }, none) :=
  ⟨by decide, by decide, resizeFrom_copies_size 0 1 ⟨30, 100⟩ world2 (by decide) (by decide)⟩

/-! ## Terminal attributes -/

theorem testBit_OPOST (i : Nat) : OPOST.testBit i = decide (0 = i) := by
  have h : OPOST = 2 ^ 0 := rfl
  rw [h, Nat.testBit_two_pow]

theorem testBit_ECHO (i : Nat) : ECHO.testBit i = decide (3 = i) := by
  have h : ECHO = 2 ^ 3 := rfl
  rw [h, Nat.testBit_two_pow]

theorem setTermios_commits (fd : Nat) (t : Termios) (w : World) :
    (IoctlSetTermios fd t w).2.commits = w.commits ++ [Commit.attr fd t] := by
  by_cases h : (IoctlSetTermios fd t w).1 = none
  · obtain ⟨_, _, tm, _, hw⟩ := setTermios_ok h
    rw [hw]
  · rw [setTermios_err h]

/-- What a successful `tcset` on the descriptor of the file `f` does. -/
theorem tcset_Fd_ok {f : File} {t : Termios} {w : World}
    (h : (tcset (File.Fd f w) t w).1 = none) :
    (f ≠ badFd ∧ (w.files f).closed = false) ∧
    ∃ tm, (w.files f).term = some tm ∧
      (tcset (File.Fd f w) t w).2 =
        { w with commits := w.commits ++ [Commit.attr f t],
                 files := Function.update w.files f
                   { w.files f with term := some { tm with attr := t } } } := by
  unfold tcset at h ⊢
  obtain ⟨h1, h2, tm, ht, hw⟩ := setTermios_ok h
  obtain ⟨hc, hfd⟩ := Fd_ne_bad h1
  rw [hfd] at h1 h2 ht hw
  rw [hfd]
  exact ⟨⟨h1, hc⟩, tm, ht, hw⟩

/-- A failed `tcset` changes neither the file objects nor the heap. -/
theorem tcset_err {fd : Nat} {t : Termios} {w : World}
    (h : (tcset fd t w).1 ≠ none) :
    (tcset fd t w).2.files = w.files ∧ (tcset fd t w).2.heap = w.heap := by
  unfold tcset at h ⊢
  rw [setTermios_err h]
  exact ⟨rfl, rfl⟩

/-- The block `getCurrent` reads, in terms of the file table. -/
theorem getCurrent_eq (m : Console) (w : World) :
    master.getCurrent m w =
      if (w.heap m).f = badFd ∨ (w.files (w.heap m).f).closed = true then
        (Termios.zero, some EBADF)
      else match (w.files (w.heap m).f).term with
        | none => (Termios.zero, some ENOTTY)
        | some tm => (tm.attr, none) := by
  unfold master.getCurrent tcget
  rw [getTermios_eq]
  cases hc : (w.files (w.heap m).f).closed
  · have hfd : File.Fd (w.heap m).f w = (w.heap m).f := by simp [File.Fd, hc]
    rw [hfd]
    by_cases hb : (w.heap m).f = badFd
    · simp [hb]
    · cases ht : (w.files (w.heap m).f).term <;> simp [hb, hc, ht]
  · simp [Fd_closed hc]

/-- After a successful `tcset` of `t` on the file of `m`, every console on
that file reads `t` and every other console reads what it did before. -/
theorem getCurrent_after_tcset (m c : Console) {t : Termios} {w : World}
    (h : (tcset (File.Fd (w.heap m).f w) t w).1 = none) :
    master.getCurrent c (tcset (File.Fd (w.heap m).f w) t w).2 =
      if (w.heap c).f = (w.heap m).f then (t, none) else master.getCurrent c w := by
  obtain ⟨⟨hb, hc⟩, tm, ht, hw⟩ := tcset_Fd_ok h
  rw [getCurrent_eq, getCurrent_eq, hw]
  by_cases hf : (w.heap c).f = (w.heap m).f
  · dsimp only
    rw [hf]
    simp [hb, hc]
  · simp [hf, Function.update_noteq hf]

/-- A `tcset`, successful or not, changes no window size. -/
theorem Size_after_tcset (c : Console) (f : File) (t : Termios) (w : World) :
    master.Size c (tcset (File.Fd f w) t w).2 = master.Size c w := by
  by_cases h : (tcset (File.Fd f w) t w).1 = none
  · obtain ⟨⟨hb, hc⟩, tm, ht, hw⟩ := tcset_Fd_ok h
    rw [Size_eq, Size_eq, hw]
    by_cases hf : (w.heap c).f = f
    · dsimp only
      rw [hf]
      simp [hb, hc, ht]
    · simp [hf, Function.update_noteq hf]
  · obtain ⟨hfl, hh⟩ := tcset_err h
    rw [Size_eq, Size_eq, hfl, hh]

/-- A `tcset` changes no `master` struct. -/
theorem tcset_heap (fd : Nat) (t : Termios) (w : World) :
    (tcset fd t w).2.heap = w.heap :=
  setTermios_heap fd t w

/-- C9: for every master console `m`: if `m.original` is nil, `m.Reset()`
returns success and leaves the whole world as it was (no attribute-set
request is issued, the live attribute block is unchanged); if `m.original`
is a snapshot `t`, `m.Reset()` is the commit of exactly `t` on the
descriptor of `m`: it returns the result of that commit, the one set request
it issues is the one for `t`, and when the commit succeeds the live block is
`t`. -/
theorem reset_restores_snapshot_or_noop (m : Console) (w : World) :
    ((w.heap m).original = none → master.Reset m w = (none, w)) ∧
    (∀ t, (w.heap m).original = some t →
      master.Reset m w = tcset (master.Fd m w) t w ∧
      (master.Reset m w).2.commits = w.commits ++ [Commit.attr (master.Fd m w) t] ∧
      ((master.Reset m w).1 = none → master.getCurrent m (master.Reset m w).2 = (t, none))) := by
  constructor
  · intro h
    simp [master.Reset, h]
  · intro t h
    have hr : master.Reset m w = tcset (master.Fd m w) t w := by
      simp [master.Reset, master.Fd, h]
    refine ⟨hr, ?_, ?_⟩
    · rw [hr]
      exact setTermios_commits _ _ _
    · rw [hr]
      intro hok
      have := getCurrent_after_tcset m m hok
      simpa [master.Fd] using this

/-- C9, evaluated: console 2 of `world3` has no snapshot and its `Reset`
returns success without touching the world; console 0 has the snapshot
`cooked`, and after `SetRaw` its `Reset` commits `cooked` again. -/
theorem reset_restores_snapshot_or_noop_witness :
    ((world3.heap 2).original = none ∧ master.Reset 2 world3 = (none, world3)) ∧
    (((master.SetRaw sampleRaw 0 world3).2.heap 0).original = some cooked ∧
      master.getCurrent 0 (master.SetRaw sampleRaw 0 world3).2 ≠ (cooked, none) ∧
      (master.Reset 0 (master.SetRaw sampleRaw 0 world3).2).1 = none ∧
      master.getCurrent 0 (master.Reset 0 (master.SetRaw sampleRaw 0 world3).2).2
        = (cooked, none)) :=
  ⟨⟨by decide, (reset_restores_snapshot_or_noop 2 world3).1 (by decide)⟩,
   ⟨by decide, by decide, by decide,
    ((reset_restores_snapshot_or_noop 0 (master.SetRaw sampleRaw 0 world3).2).2 cooked
      (by decide)).2.2 (by decide)⟩⟩

/-- When the attribute read succeeds with `s`, `SetRaw` is the commit of
`cfmakeraw s` with `OPOST` set. -/
theorem SetRaw_eq {cfmakeraw : Termios → Termios} {m : Console} {w : World} {s : Termios}
    (h : master.getCurrent m w = (s, none)) :
    master.SetRaw cfmakeraw m w =
      tcset (File.Fd (w.heap m).f w)
        { cfmakeraw s with Oflag := (cfmakeraw s).Oflag ||| OPOST } w := by
  simp [master.SetRaw, h]

/-- When the attribute read succeeds with `s`, `DisableEcho` is the commit
of `s` with `ECHO` cleared. -/
theorem DisableEcho_eq {m : Console} {w : World} {s : Termios}
    (h : master.getCurrent m w = (s, none)) :
    master.DisableEcho m w =
      tcset (File.Fd (w.heap m).f w) { s with Lflag := andNot s.Lflag ECHO } w := by
  simp [master.DisableEcho, h]

/-- C7: for every master console `m` and every raw-mode transformation
`cfmakeraw`: if the attribute read succeeds with the live block `s`,
`m.SetRaw()` returns the result of committing the block `r` obtained from
`cfmakeraw s` (whatever `m.original` is) by setting the `OPOST` bit of
`Oflag`: bit 0 of `r.Oflag` is set, every other bit of `r.Oflag` and every
other field of `r` is that of `cfmakeraw s`, the one set request issued is
the one for `r`, and when the commit succeeds the live block is `r`; if the
attribute read fails with `e`, `SetRaw` returns `e` and leaves the whole
world as it was (nothing is committed). -/
theorem setRaw_commits_raw_with_opost (cfmakeraw : Termios → Termios) (m : Console)
    (w : World) :
    (∀ s, master.getCurrent m w = (s, none) →
      let r : Termios := { cfmakeraw s with Oflag := (cfmakeraw s).Oflag ||| OPOST }
      master.SetRaw cfmakeraw m w = tcset (master.Fd m w) r w ∧
      (master.SetRaw cfmakeraw m w).2.commits = w.commits ++ [Commit.attr (master.Fd m w) r] ∧
      ((master.SetRaw cfmakeraw m w).1 = none →
        master.getCurrent m (master.SetRaw cfmakeraw m w).2 = (r, none)) ∧
      r.Oflag.testBit 0 = true ∧
      (∀ i, i ≠ 0 → r.Oflag.testBit i = (cfmakeraw s).Oflag.testBit i) ∧
      r.Iflag = (cfmakeraw s).Iflag ∧ r.Cflag = (cfmakeraw s).Cflag ∧
      r.Lflag = (cfmakeraw s).Lflag ∧ r.Line = (cfmakeraw s).Line ∧
      r.Cc = (cfmakeraw s).Cc ∧ r.Ispeed = (cfmakeraw s).Ispeed ∧
      r.Ospeed = (cfmakeraw s).Ospeed) ∧
    (∀ e, (master.getCurrent m w).2 = some e → master.SetRaw cfmakeraw m w = (some e, w)) := by
  constructor
  · intro s hs r
    refine ⟨?_, ?_, ?_, ?_, ?_, rfl, rfl, rfl, rfl, rfl, rfl, rfl⟩
    · rw [SetRaw_eq hs]; rfl
    · rw [SetRaw_eq hs]
      exact setTermios_commits _ _ _
    · rw [SetRaw_eq hs]
      intro hok
      have := getCurrent_after_tcset m m hok
      simpa using this
    · show ((cfmakeraw s).Oflag ||| OPOST).testBit 0 = true
      rw [Nat.testBit_or, testBit_OPOST]
      simp
    · intro i hi
      have hi' : ¬ (0 = i) := fun h => hi h.symm
      show ((cfmakeraw s).Oflag ||| OPOST).testBit i = _
      rw [Nat.testBit_or, testBit_OPOST]
      simp [hi']
  · intro e he
    unfold master.SetRaw
    cases hg : master.getCurrent m w with
    | mk t err =>
      rw [hg] at he
      simp at he
      simp [he]

/-- C7, evaluated on console 0 of `world1` with the sample raw-mode
transformation: the live block `cooked` is read, `SetRaw` succeeds and the
live block is then the raw block with `OPOST` set (`Oflag` 0x5, `Lflag`
0xa30); on the closed console the read fails and `SetRaw` returns its
error. -/
theorem setRaw_commits_raw_with_opost_witness :
    (master.getCurrent 0 world1 = (cooked, none) ∧
      (master.SetRaw sampleRaw 0 world1).1 = none ∧
      master.getCurrent 0 (master.SetRaw sampleRaw 0 world1).2 =
        ({ cooked with Oflag := 0x5, Lflag := 0xa30 }, none)) ∧
    ((master.getCurrent 0 (master.Close 0 world1).2).2 = some EBADF ∧
      master.SetRaw sampleRaw 0 (master.Close 0 world1).2 =
        (some EBADF, (master.Close 0 world1).2)) :=
  ⟨⟨by decide, by decide,
    ((setRaw_commits_raw_with_opost sampleRaw 0 world1).1 cooked (by decide)).2.2.1 (by decide)⟩,
   ⟨by decide,
    (setRaw_commits_raw_with_opost sampleRaw 0 (master.Close 0 world1).2).2 EBADF (by decide)⟩⟩

/-- C8: for every master console `m` whose live attribute block is `s`
(the attribute read succeeds with `s`) and for which the commit succeeds,
after `m.DisableEcho()` the attribute read succeeds with a block whose
`Lflag` has the `ECHO` bit (bit 3) cleared and every other bit as in `s`,
and whose `Iflag`, `Oflag`, `Cflag`, line discipline, control characters and
speeds are those of `s`; the window size the kernel holds and `m.Size()` are
unchanged, and so is the struct of `m` (hence `m.original`). -/
theorem disableEcho_clears_only_echo (m : Console) (w : World) (s : Termios)
    (hread : master.getCurrent m w = (s, none))
    (hok : (master.DisableEcho m w).1 = none) :
    (master.getCurrent m (master.DisableEcho m w).2).2 = none ∧
    (master.getCurrent m (master.DisableEcho m w).2).1.Lflag.testBit 3 = false ∧
    (∀ i, i ≠ 3 →
      (master.getCurrent m (master.DisableEcho m w).2).1.Lflag.testBit i = s.Lflag.testBit i) ∧
    (master.getCurrent m (master.DisableEcho m w).2).1.Iflag = s.Iflag ∧
    (master.getCurrent m (master.DisableEcho m w).2).1.Oflag = s.Oflag ∧
    (master.getCurrent m (master.DisableEcho m w).2).1.Cflag = s.Cflag ∧
    (master.getCurrent m (master.DisableEcho m w).2).1.Line = s.Line ∧
    (master.getCurrent m (master.DisableEcho m w).2).1.Cc = s.Cc ∧
    (master.getCurrent m (master.DisableEcho m w).2).1.Ispeed = s.Ispeed ∧
    (master.getCurrent m (master.DisableEcho m w).2).1.Ospeed = s.Ospeed ∧
    master.Size m (master.DisableEcho m w).2 = master.Size m w ∧
    (master.DisableEcho m w).2.heap m = w.heap m := by
  rw [DisableEcho_eq hread] at hok ⊢
  have hg := getCurrent_after_tcset m m hok
  simp only [if_true] at hg
  rw [hg]
  refine ⟨rfl, ?_, ?_, rfl, rfl, rfl, rfl, rfl, rfl, rfl, Size_after_tcset _ _ _ _, ?_⟩
  · simp [testBit_andNot, testBit_ECHO]
  · intro i hi
    have hi' : ¬ (3 = i) := fun h => hi h.symm
    simp [testBit_andNot, testBit_ECHO, hi']
  · rw [tcset_heap]

/-- C8, evaluated on console 0 of `world1`: the live block is `cooked`
(`Lflag` 0x8a3b, echo on); after `DisableEcho` the echo bit is off. -/
theorem disableEcho_clears_only_echo_witness :
    master.getCurrent 0 world1 = (cooked, none) ∧
    (master.DisableEcho 0 world1).1 = none ∧
    cooked.Lflag.testBit 3 = true ∧
    (master.getCurrent 0 (master.DisableEcho 0 world1).2).1.Lflag.testBit 3 = false ∧
    (master.getCurrent 0 (master.DisableEcho 0 world1).2).1.Oflag = cooked.Oflag :=
  ⟨by decide, by decide, by decide,
   (disableEcho_clears_only_echo 0 world1 cooked (by decide) (by decide)).2.1,
   (disableEcho_clears_only_echo 0 world1 cooked (by decide) (by decide)).2.2.2.2.1⟩

/-! ## The saved attribute block -/

theorem Read_heap (f : File) (n : Nat) (w : World) : (File.Read f n w).2.heap = w.heap := by
  unfold File.Read
  dsimp only
  split
  · rfl
  · split
    · rfl
    · split <;> rfl

theorem Write_heap (f : File) (b : List Nat) (w : World) : (File.Write f b w).2.heap = w.heap := by
  unfold File.Write
  dsimp only
  split <;> rfl

theorem Close_heap (f : File) (w : World) : (File.Close f w).2.heap = w.heap := by
  unfold File.Close
  dsimp only
  split <;> rfl

theorem Resize_heap (m : Console) (ws : WinSize) (w : World) :
    (master.Resize m ws w).2.heap = w.heap :=
  setWinsize_heap _ _ _

theorem ResizeFrom_heap (m c : Console) (w : World) :
    (master.ResizeFrom m c w).2.heap = w.heap := by
  unfold master.ResizeFrom
  split
  · rfl
  · exact Resize_heap _ _ _

theorem Reset_heap (m : Console) (w : World) : (master.Reset m w).2.heap = w.heap := by
  unfold master.Reset
  split
  · rfl
  · exact tcset_heap _ _ _

theorem SetRaw_heap (cfmakeraw : Termios → Termios) (m : Console) (w : World) :
    (master.SetRaw cfmakeraw m w).2.heap = w.heap := by
  unfold master.SetRaw
  split
  · rfl
  · exact tcset_heap _ _ _

theorem DisableEcho_heap (m : Console) (w : World) :
    (master.DisableEcho m w).2.heap = w.heap := by
  unfold master.DisableEcho
  split
  · rfl
  · exact tcset_heap _ _ _

/-- No call on any console changes a `master` struct. -/
theorem exec_heap (cfmakeraw : Termios → Termios) (r : Console) (c : Call) (w : World) :
    (c.exec cfmakeraw r w).2.heap = w.heap := by
  cases c with
  | Read n => exact Read_heap _ _ _
  | Write b => exact Write_heap _ _ _
  | Close => exact Close_heap _ _
  | Resize ws => exact Resize_heap _ _ _
  | ResizeFrom c => exact ResizeFrom_heap _ _ _
  | Reset => exact Reset_heap _ _
  | SetRaw => exact SetRaw_heap _ _ _
  | DisableEcho => exact DisableEcho_heap _ _
  | Size => rfl
  | Fd => rfl
  | Name => rfl

theorem runCalls_heap (cfmakeraw : Termios → Termios) (r : Console) (calls : List Call)
    (w : World) : (runCalls cfmakeraw r calls w).heap = w.heap := by
  induction calls generalizing w with
  | nil => rfl
  | cons c cs ih =>
    unfold runCalls
    rw [ih, exec_heap]

/-- The two outcomes of `newMaster`, in terms of the world in which the
struct has been allocated. -/
theorem newMaster_eq (f : File) (w : World) :
    newMaster f w =
      match master.getCurrent w.brk
          { w with heap := Function.update w.heap w.brk { f := f, original := none },
                   brk := w.brk + 1 } with
      | (_, some err) =>
        ((none, some err),
         { w with heap := Function.update w.heap w.brk { f := f, original := none },
                  brk := w.brk + 1 })
      | (t, none) =>
        ((some w.brk, none),
         { w with heap := Function.update w.heap w.brk { f := f, original := some t },
                  brk := w.brk + 1 }) := by
  unfold newMaster
  dsimp only
  split <;> simp

/-- The block `getCurrent` reads depends on the file of the console and on
the file objects only. -/
theorem getCurrent_congr {m m' : Console} {w w' : World}
    (hf : (w'.heap m').f = (w.heap m).f) (hfiles : w'.files = w.files) :
    master.getCurrent m' w' = master.getCurrent m w := by
  rw [getCurrent_eq, getCurrent_eq, hf, hfiles]

/-- The size a console reports depends on its file and on the file objects
only. -/
theorem Size_congr {m m' : Console} {w w' : World}
    (hf : (w'.heap m').f = (w.heap m).f) (hfiles : w'.files = w.files) :
    master.Size m' w' = master.Size m w := by
  rw [Size_eq, Size_eq, hf, hfiles]

/-- A successful `newMaster`: the console is the struct at the old `brk`,
it wraps `f`, its snapshot is the block read on `f`, and no file object
changed. -/
theorem newMaster_ok {f : File} {w w1 : World} {m : Console}
    (h : newMaster f w = ((some m, none), w1)) :
    ∃ t, w1.heap m = { f := f, original := some t } ∧ w1.files = w.files ∧
      master.getCurrent m w1 = (t, none) ∧ m = w.brk ∧
      (∀ a, a ≠ w.brk → w1.heap a = w.heap a) := by
  rw [newMaster_eq] at h
  cases hg : master.getCurrent w.brk
      { w with heap := Function.update w.heap w.brk { f := f, original := none },
               brk := w.brk + 1 } with
  | mk t err =>
    rw [hg] at h
    cases err with
    | some e => simp at h
    | none =>
      simp only [Prod.mk.injEq, Option.some.injEq, and_true] at h
      obtain ⟨hm, hw⟩ := h
      subst hm
      subst hw
      refine ⟨t, by simp, rfl, ?_, rfl, ?_⟩
      · rw [← hg]
        apply getCurrent_congr
        · simp
        · rfl
      · intro a ha
        simp [Function.update_noteq ha]

/-! ## Construction and reset -/

/-- The unlock request changes neither the heap, nor the closed flag or the
terminal of any file object. -/
theorem unlockpt_frame (f : File) (w : World) :
    (unlockpt f w).2.heap = w.heap ∧ (unlockpt f w).2.brk = w.brk ∧
    ∀ g, ((unlockpt f w).2.files g).closed = (w.files g).closed ∧
      ((unlockpt f w).2.files g).term = (w.files g).term := by
  unfold unlockpt IoctlSetPointerInt
  dsimp only
  cases hg : fdget (File.Fd f w) w with
  | none => exact ⟨rfl, rfl, fun g => ⟨rfl, rfl⟩⟩
  | some o =>
    obtain ⟨_, _, rfl⟩ := fdget_some hg
    cases hu : (w.files (File.Fd f w)).unlockable
    · simp [hu]
    · simp only [hu, if_true]
      refine ⟨by trivial, by trivial, fun g => ?_⟩
      by_cases hgf : g = File.Fd f w
      · subst hgf; simp
      · simp [Function.update_noteq hgf]

theorem getTermios_congr {fd : Nat} {w w' : World}
    (hc : (w'.files fd).closed = (w.files fd).closed)
    (ht : (w'.files fd).term = (w.files fd).term) :
    IoctlGetTermios fd w' = IoctlGetTermios fd w := by
  rw [getTermios_eq, getTermios_eq, hc, ht]

theorem getWinsize_congr {fd : Nat} {w w' : World}
    (hc : (w'.files fd).closed = (w.files fd).closed)
    (ht : (w'.files fd).term = (w.files fd).term) :
    IoctlGetWinsize fd w' = IoctlGetWinsize fd w := by
  rw [getWinsize_eq, getWinsize_eq, hc, ht]

/-- On a console wrapping `f`, `getCurrent` is the attribute read on the
descriptor of `f`. -/
theorem getCurrent_eq_ioctl {m : Console} {w : World} {f : File} (hf : (w.heap m).f = f) :
    master.getCurrent m w = IoctlGetTermios (File.Fd f w) w := by
  unfold master.getCurrent tcget
  rw [hf]
  cases hg : IoctlGetTermios (File.Fd f w) w with
  | mk t err =>
    cases err with
    | none => rfl
    | some e =>
      have h := getTermios_eq (File.Fd f w) w
      rw [hg] at h
      split at h
      · simp at h; simp [h.1]
      · split at h
        · simp at h; simp [h.1]
        · simp at h

/-- When the attribute read succeeds, so does the size read. -/
theorem Size_ok_of_getCurrent_ok {m : Console} {w : World}
    (h : (master.getCurrent m w).2 = none) : (master.Size m w).2 = none := by
  rw [getCurrent_eq] at h
  rw [Size_eq]
  split
  · rename_i hc; simp [hc] at h
  · rename_i hc
    simp only [hc, if_false] at h
    cases ht : (w.files (w.heap m).f).term with
    | none => simp [ht] at h
    | some tm => simp

/-- A successful `NewPtyFromFile` is the unlock followed by a successful
`newMaster`. -/
theorem NewPtyFromFile_ok {f : File} {w w1 : World} {m : Console} {slave : String}
    (h : NewPtyFromFile f w = ((some m, slave, none), w1)) :
    newMaster f (unlockpt f w).2 = ((some m, none), w1) := by
  unfold NewPtyFromFile at h
  cases hp : ptsname f w with
  | mk sl perr =>
    cases perr with
    | some e => simp [hp] at h
    | none =>
      cases hu : unlockpt f w with
      | mk uerr wu =>
        cases uerr with
        | some e => simp [hp, hu] at h
        | none =>
          cases hn : newMaster f wu with
          | mk res wn =>
            obtain ⟨c, nerr⟩ := res
            cases nerr with
            | some e => simp [hp, hu, hn] at h
            | none =>
              simp [hp, hu, hn] at h
              obtain ⟨⟨hc, _⟩, hw⟩ := h
              simp [hc, hw]

/-- Calls of `SetRaw` and `DisableEcho` change no window size. -/
theorem runCalls_attr_Size (cfmakeraw : Termios → Termios) (m c : Console) (calls : List Call)
    (hcalls : ∀ x ∈ calls, x = Call.SetRaw ∨ x = Call.DisableEcho) (w : World) :
    master.Size c (runCalls cfmakeraw m calls w) = master.Size c w := by
  induction calls generalizing w with
  | nil => rfl
  | cons x xs ih =>
    unfold runCalls
    rw [ih (fun y hy => hcalls y (List.mem_cons_of_mem _ hy))]
    rcases hcalls x (List.mem_cons_self _ _) with hx | hx
    · subst hx
      show master.Size c (master.SetRaw cfmakeraw m w).2 = _
      unfold master.SetRaw
      split
      · rfl
      · exact Size_after_tcset _ _ _ _
    · subst hx
      show master.Size c (master.DisableEcho m w).2 = _
      unfold master.DisableEcho
      split
      · rfl
      · exact Size_after_tcset _ _ _ _

/-- Reset after calls on a console made by `newMaster`. -/
theorem reset_after_newMaster (cfmakeraw : Termios → Termios) {f : File} {w0 w1 : World}
    {m : Console} (calls : List Call)
    (hnew : newMaster f w0 = ((some m, none), w1))
    (hcalls : ∀ c ∈ calls, c = Call.SetRaw ∨ c = Call.DisableEcho)
    (hreset : (master.Reset m (runCalls cfmakeraw m calls w1)).1 = none) :
    master.getCurrent m (master.Reset m (runCalls cfmakeraw m calls w1)).2
      = IoctlGetTermios (File.Fd f w0) w0 ∧
    (IoctlGetTermios (File.Fd f w0) w0).2 = none ∧
    master.Size m (master.Reset m (runCalls cfmakeraw m calls w1)).2
      = tcgwinsz (File.Fd f w0) w0 ∧
    (tcgwinsz (File.Fd f w0) w0).2 = none := by
  obtain ⟨t, hm, hfiles, hg, hbrk, _⟩ := newMaster_ok hnew
  have hf1 : (w1.heap m).f = f := by rw [hm]
  -- the block and the size before construction are those read right after it
  have hg0 : IoctlGetTermios (File.Fd f w0) w0 = (t, none) := by
    rw [← hg, getCurrent_eq_ioctl hf1]
    exact (getTermios_congr (by rw [hfiles]) (by rw [hfiles])).symm.trans
      (by rw [Fd_congr f (by rw [hfiles])])
  have hs0 : tcgwinsz (File.Fd f w0) w0 = master.Size m w1 := by
    unfold master.Size
    rw [hf1, Fd_congr f (show (w1.files f).closed = (w0.files f).closed by rw [hfiles])]
    unfold tcgwinsz
    rw [@getWinsize_congr (File.Fd f w0) w0 w1 (by rw [hfiles]) (by rw [hfiles])]
  -- the struct is unchanged by the calls
  have horig : ((runCalls cfmakeraw m calls w1).heap m).original = some t := by
    rw [runCalls_heap, hm]
  have hr : master.Reset m (runCalls cfmakeraw m calls w1) =
      tcset (File.Fd ((runCalls cfmakeraw m calls w1).heap m).f (runCalls cfmakeraw m calls w1)) t
        (runCalls cfmakeraw m calls w1) := by
    simp [master.Reset, horig]
  rw [hr] at hreset ⊢
  refine ⟨?_, by rw [hg0], ?_, ?_⟩
  · rw [getCurrent_after_tcset m m hreset, hg0]
    simp
  · rw [Size_after_tcset, runCalls_attr_Size cfmakeraw m m calls hcalls, hs0]
  · rw [hs0]
    apply Size_ok_of_getCurrent_ok
    rw [hg]

/-- C2: for every console `m` returned by `newMaster` or by
`NewPtyFromFile` on the file `f` and every finite sequence of `SetRaw` and
`DisableEcho` calls on `m` (successful or not), after a following
successful `m.Reset()` the attribute read on `m` succeeds and returns the
block the file had when the console was constructed, and `m.Size()`
succeeds and returns the size the file had at construction. -/
theorem reset_returns_to_construction_state (cfmakeraw : Termios → Termios) (f : File)
    (w0 w1 : World) (m : Console) (calls : List Call)
    (hnew : newMaster f w0 = ((some m, none), w1) ∨
      ∃ slave, NewPtyFromFile f w0 = ((some m, slave, none), w1))
    (hcalls : ∀ c ∈ calls, c = Call.SetRaw ∨ c = Call.DisableEcho)
    (hreset : (master.Reset m (runCalls cfmakeraw m calls w1)).1 = none) :
    master.getCurrent m (master.Reset m (runCalls cfmakeraw m calls w1)).2
      = IoctlGetTermios (File.Fd f w0) w0 ∧
    (IoctlGetTermios (File.Fd f w0) w0).2 = none ∧
    master.Size m (master.Reset m (runCalls cfmakeraw m calls w1)).2
      = tcgwinsz (File.Fd f w0) w0 ∧
    (tcgwinsz (File.Fd f w0) w0).2 = none := by
  rcases hnew with hnew | ⟨slave, hnew⟩
  · exact reset_after_newMaster cfmakeraw calls hnew hcalls hreset
  · have h := reset_after_newMaster cfmakeraw calls (NewPtyFromFile_ok hnew) hcalls hreset
    obtain ⟨_, _, hfr⟩ := unlockpt_frame f w0
    have hfd : File.Fd f (unlockpt f w0).2 = File.Fd f w0 := Fd_congr f (hfr f).1
    have hg : IoctlGetTermios (File.Fd f (unlockpt f w0).2) (unlockpt f w0).2
        = IoctlGetTermios (File.Fd f w0) w0 := by
      rw [hfd]
      exact getTermios_congr (hfr _).1 (hfr _).2
    have hs : tcgwinsz (File.Fd f (unlockpt f w0).2) (unlockpt f w0).2
        = tcgwinsz (File.Fd f w0) w0 := by
      unfold tcgwinsz
      rw [hfd, getWinsize_congr (hfr _).1 (hfr _).2]
    rw [hg, hs] at h
    exact h

/-- C2, evaluated: on the open pty of `worldOpen`, `NewPtyFromFile` returns
console 0; the block is `cooked` and the size 24 by 80; after SetRaw and
DisableEcho the live block differs from `cooked`, and after `Reset` the
block read is `cooked` again and the size is 24 by 80. -/
theorem reset_returns_to_construction_state_witness :
    NewPtyFromFile 3 worldOpen = ((some 0, "/dev/pts/7", none), (NewPtyFromFile 3 worldOpen).2) ∧
    master.getCurrent 0
      (runCalls sampleRaw 0 [Call.SetRaw, Call.DisableEcho] (NewPtyFromFile 3 worldOpen).2)
      ≠ (cooked, none) ∧
    IoctlGetTermios (File.Fd 3 worldOpen) worldOpen = (cooked, none) ∧
    tcgwinsz (File.Fd 3 worldOpen) worldOpen = (⟨24, 80⟩, none) ∧
    master.getCurrent 0
      (master.Reset 0
        (runCalls sampleRaw 0 [Call.SetRaw, Call.DisableEcho] (NewPtyFromFile 3 worldOpen).2)).2
      = IoctlGetTermios (File.Fd 3 worldOpen) worldOpen ∧
    master.Size 0
      (master.Reset 0
        (runCalls sampleRaw 0 [Call.SetRaw, Call.DisableEcho] (NewPtyFromFile 3 worldOpen).2)).2
      = tcgwinsz (File.Fd 3 worldOpen) worldOpen :=
  have h := reset_returns_to_construction_state sampleRaw 3 worldOpen
    (NewPtyFromFile 3 worldOpen).2 0 [Call.SetRaw, Call.DisableEcho]
    (Or.inr ⟨"/dev/pts/7", rfl⟩) (by simp) (by decide)
  ⟨rfl, by decide, by decide, by decide, h.1, h.2.2.1⟩

/-- A successful `NewPty` is a successful `NewPtyFromFile` on the file the
cloning device handed out. -/
theorem NewPty_ok {w w1 : World} {m : Console} {slave : String}
    (h : NewPty w = ((some m, slave, none), w1)) :
    NewPtyFromFile w.nextFd (openpt w).2 = ((some m, slave, none), w1) := by
  unfold NewPty at h
  unfold openpt at h ⊢
  cases hp : w.ptmx with
  | none => simp [hp] at h
  | some o =>
    simp only [hp] at h ⊢
    exact h

/-- Every console a constructor returns was made by a successful
`newMaster`. -/
theorem constructed_by_newMaster {f : File} {w0 w1 : World} {m : Console}
    (h : newMaster f w0 = ((some m, none), w1) ∨
      (∃ slave, NewPtyFromFile f w0 = ((some m, slave, none), w1)) ∨
      (∃ slave, NewPty w0 = ((some m, slave, none), w1))) :
    ∃ g w, newMaster g w = ((some m, none), w1) := by
  rcases h with h | ⟨slave, h⟩ | ⟨slave, h⟩
  · exact ⟨f, w0, h⟩
  · exact ⟨f, _, NewPtyFromFile_ok h⟩
  · exact ⟨_, _, NewPtyFromFile_ok (NewPty_ok h)⟩

/-- C10: no call of a `Console` method (Read, Write, Resize, ResizeFrom,
Size, SetRaw, DisableEcho, Reset, Close, Fd, Name), on any console and
whether it succeeds or fails, changes any `master` struct, so `m.original`
is after the call what it was before; and for a console `m` constructed by
`newMaster`, `NewPtyFromFile` or `NewPty`, `m.original` is the live block
captured at construction, and it is still that value after every sequence
of calls. -/
theorem original_is_never_mutated (cfmakeraw : Termios → Termios) :
    (∀ (r : Console) (c : Call) (w : World) (m : Console),
      ((c.exec cfmakeraw r w).2.heap m).original = (w.heap m).original) ∧
    (∀ (f : File) (w0 w1 : World) (m : Console),
      (newMaster f w0 = ((some m, none), w1) ∨
        (∃ slave, NewPtyFromFile f w0 = ((some m, slave, none), w1)) ∨
        (∃ slave, NewPty w0 = ((some m, slave, none), w1))) →
      (master.getCurrent m w1).2 = none ∧
      (w1.heap m).original = some (master.getCurrent m w1).1 ∧
      ∀ calls : List Call,
        ((runCalls cfmakeraw m calls w1).heap m).original
          = some (master.getCurrent m w1).1) := by
  constructor
  · intro r c w m
    rw [exec_heap]
  · intro f w0 w1 m h
    obtain ⟨g, w, hnew⟩ := constructed_by_newMaster h
    obtain ⟨t, hm, _, hg, _, _⟩ := newMaster_ok hnew
    refine ⟨by rw [hg], by rw [hm, hg], ?_⟩
    intro calls
    rw [runCalls_heap, hm, hg]

/-- C10, evaluated: `NewPty` in `world0` gives the console at address 0
with snapshot `cooked`; after SetRaw, DisableEcho, a Resize, a Read, a
Write, Close and a (failing) Reset the snapshot is still `cooked`, although
the live block was changed on the way. -/
theorem original_is_never_mutated_witness :
    NewPty world0 = ((some 0, "/dev/pts/7", none), (NewPty world0).2) ∧
    master.getCurrent 0 (NewPty world0).2 = (cooked, none) ∧
    master.getCurrent 0 (runCalls sampleRaw 0 [Call.SetRaw] (NewPty world0).2)
      ≠ (cooked, none) ∧
    ((runCalls sampleRaw 0
        [Call.SetRaw, Call.DisableEcho, Call.Resize ⟨10, 11⟩, Call.Read 1, Call.Write [10],
         Call.Close, Call.Reset]
        (NewPty world0).2).heap 0).original = some (master.getCurrent 0 (NewPty world0).2).1 :=
  ⟨rfl, by decide, by decide,
   ((original_is_never_mutated sampleRaw).2 0 world0 (NewPty world0).2 0
      (Or.inr (Or.inr ⟨"/dev/pts/7", rfl⟩))).2.2 _⟩

/-! ## Failure of the constructors -/

/-- In both outcomes `newMaster` leaves the file objects alone. -/
theorem newMaster_files (f : File) (w : World) : (newMaster f w).2.files = w.files := by
  rw [newMaster_eq]
  split <;> rfl

/-- When `newMaster` returns an error it returns no console. -/
theorem newMaster_err {f : File} {w : World} (h : (newMaster f w).1.2 ≠ none) :
    (newMaster f w).1.1 = none := by
  rw [newMaster_eq] at h ⊢
  split
  · rfl
  · rename_i hg
    simp [hg] at h

/-- No path of `NewPtyFromFile` closes a file. -/
theorem NewPtyFromFile_closed (f : File) (w : World) (g : Nat) :
    ((NewPtyFromFile f w).2.files g).closed = (w.files g).closed := by
  unfold NewPtyFromFile
  split
  · rfl
  · cases hu : unlockpt f w with
    | mk uerr wu =>
      have hfr := (unlockpt_frame f w).2.2 g
      rw [hu] at hfr
      cases uerr with
      | some e => exact hfr.1
      | none =>
        dsimp only
        have hn := newMaster_files f wu
        cases hnm : newMaster f wu with
        | mk res wn =>
          rw [hnm] at hn
          obtain ⟨c, nerr⟩ := res
          cases nerr with
          | some e => dsimp only at hn ⊢; rw [hn]; exact hfr.1
          | none => dsimp only at hn ⊢; rw [hn]; exact hfr.1

/-- When `NewPtyFromFile` returns an error it returns no console and the
empty slave path. -/
theorem NewPtyFromFile_err {f : File} {w : World} (h : (NewPtyFromFile f w).1.2.2 ≠ none) :
    (NewPtyFromFile f w).1.1 = none ∧ (NewPtyFromFile f w).1.2.1 = "" := by
  unfold NewPtyFromFile at h ⊢
  split
  · exact ⟨rfl, rfl⟩
  · cases hu : unlockpt f w with
    | mk uerr wu =>
      cases uerr with
      | some e => exact ⟨rfl, rfl⟩
      | none =>
        rw [hu] at h
        dsimp only at h ⊢
        cases hnm : newMaster f wu with
        | mk res wn =>
          obtain ⟨c, nerr⟩ := res
          rw [hnm] at h
          cases nerr with
          | some e => exact ⟨rfl, rfl⟩
          | none =>
            rename_i hp
            simp [hp] at h

/-- C3 as the code has it: whenever `NewPtyFromFile` or `NewPty` returns an
error it returns no console (nil) and the empty slave path, and it closes
no file: after `NewPtyFromFile` every file is closed exactly if it was
before the call, and after `NewPty` so is every file but the one it opened
from the cloning device, which is still open. -/
theorem constructors_on_error_return_nothing_and_close_nothing :
    (∀ (f : File) (w : World), (NewPtyFromFile f w).1.2.2 ≠ none →
      (NewPtyFromFile f w).1.1 = none ∧ (NewPtyFromFile f w).1.2.1 = "" ∧
      ∀ g, ((NewPtyFromFile f w).2.files g).closed = (w.files g).closed) ∧
    (∀ w : World, (NewPty w).1.2.2 ≠ none →
      (NewPty w).1.1 = none ∧ (NewPty w).1.2.1 = "" ∧
      (∀ g, g ≠ w.nextFd → ((NewPty w).2.files g).closed = (w.files g).closed) ∧
      (w.ptmx.isSome = true → ((NewPty w).2.files w.nextFd).closed = false)) := by
  constructor
  · intro f w h
    exact ⟨(NewPtyFromFile_err h).1, (NewPtyFromFile_err h).2, NewPtyFromFile_closed f w⟩
  · intro w h
    unfold NewPty openpt at h ⊢
    cases hp : w.ptmx with
    | none => simp
    | some o =>
      simp only [hp] at h ⊢
      refine ⟨(NewPtyFromFile_err h).1, (NewPtyFromFile_err h).2, ?_, ?_⟩
      · intro g hg
        rw [NewPtyFromFile_closed]
        simp [Function.update_noteq hg]
      · intro _
        rw [NewPtyFromFile_closed]
        simp

/-- C3, evaluated on each failure: the cloning device of `worldBadPtmx`
hands out a master that refuses the pty-name request, and `NewPty` returns
the error with no console and no slave path while the master it opened
(file 3) is open; in `worldFaulty`, `NewPtyFromFile` fails on file 7 in the
unlock and on file 8 in the attribute capture, each time with no console,
no slave path, and the file still open. -/
theorem constructors_on_error_return_nothing_and_close_nothing_witness :
    ((NewPty worldBadPtmx).1.2.2 = some ENOTTY ∧
      (NewPty worldBadPtmx).1.1 = none ∧ (NewPty worldBadPtmx).1.2.1 = "" ∧
      ((NewPty worldBadPtmx).2.files worldBadPtmx.nextFd).closed = false) ∧
    ((ptsname 7 worldFaulty).2 = none ∧ (NewPtyFromFile 7 worldFaulty).1.2.2 = some ENOTTY ∧
      (NewPtyFromFile 7 worldFaulty).1.1 = none ∧ (NewPtyFromFile 7 worldFaulty).1.2.1 = "" ∧
      ((NewPtyFromFile 7 worldFaulty).2.files 7).closed = (worldFaulty.files 7).closed ∧
      (worldFaulty.files 7).closed = false) ∧
    ((ptsname 8 worldFaulty).2 = none ∧ (unlockpt 8 worldFaulty).1 = none ∧
      (NewPtyFromFile 8 worldFaulty).1.2.2 = some ENOTTY ∧
      (NewPtyFromFile 8 worldFaulty).1.1 = none ∧ (NewPtyFromFile 8 worldFaulty).1.2.1 = "" ∧
      ((NewPtyFromFile 8 worldFaulty).2.files 8).closed = (worldFaulty.files 8).closed ∧
      (worldFaulty.files 8).closed = false) :=
  have h := constructors_on_error_return_nothing_and_close_nothing.2 worldBadPtmx (by decide)
  have h7 := constructors_on_error_return_nothing_and_close_nothing.1 7 worldFaulty (by decide)
  have h8 := constructors_on_error_return_nothing_and_close_nothing.1 8 worldFaulty (by decide)
  ⟨⟨by decide, h.1, h.2.1, h.2.2.2 (by decide)⟩,
   ⟨by decide, by decide, h7.1, h7.2.1, h7.2.2 7, by decide⟩,
   ⟨by decide, by decide, by decide, h8.1, h8.2.1, h8.2.2 8, by decide⟩⟩

/-- C3 fails as stated: `NewPty` in `worldBadPtmx` opens file 3 (closed
before the call), fails in the pty-name request, and returns with file 3
still open; `NewPtyFromFile` on the open regular file 5 of `worldFaulty`
fails and returns with file 5 still open. -/
theorem constructors_leave_master_open_on_error :
    ((worldBadPtmx.files 3).closed = true ∧
      (NewPty worldBadPtmx).1 = (none, "", some ENOTTY) ∧
      ((NewPty worldBadPtmx).2.files 3).closed = false) ∧
    ((worldFaulty.files 5).closed = false ∧
      (NewPtyFromFile 5 worldFaulty).1 = (none, "", some ENOTTY) ∧
      ((NewPtyFromFile 5 worldFaulty).2.files 5).closed = false) := by
  decide

/-! ## After `Close` -/

/-- After `Close`, whatever it returned, the file of the console is
closed. -/
theorem Close_closes (m : Console) (w : World) :
    ((master.Close m w).2.files ((master.Close m w).2.heap m).f).closed = true := by
  unfold master.Close
  rw [Close_heap]
  unfold File.Close
  dsimp only
  cases hc : (w.files (w.heap m).f).closed
  · simp
  · simp [hc]

/-- Every set request on the invalid descriptor is refused with `EBADF` and
changes neither the file objects nor the heap. -/
theorem tcset_badFd (t : Termios) (w : World) :
    (tcset badFd t w).1 = some EBADF ∧ (tcset badFd t w).2.files = w.files ∧
    (tcset badFd t w).2.heap = w.heap := by
  simp [tcset, IoctlSetTermios, fdget_badFd]

theorem tcswinsz_badFd (ws : WinSize) (w : World) :
    (tcswinsz badFd ws w).1 = some EBADF ∧ (tcswinsz badFd ws w).2.files = w.files ∧
    (tcswinsz badFd ws w).2.heap = w.heap := by
  simp [tcswinsz, IoctlSetWinsize, fdget_badFd]

theorem getCurrent_closed {m : Console} {w : World}
    (hcl : (w.files (w.heap m).f).closed = true) :
    master.getCurrent m w = (Termios.zero, some EBADF) := by
  rw [getCurrent_eq]
  simp [hcl]

theorem Size_closed {m : Console} {w : World}
    (hcl : (w.files (w.heap m).f).closed = true) :
    master.Size m w = (⟨0, 0⟩, some EBADF) := by
  rw [Size_eq]
  simp [hcl]

theorem Resize_closed {m : Console} {w : World} (ws : WinSize)
    (hcl : (w.files (w.heap m).f).closed = true) :
    (master.Resize m ws w).1 = some EBADF ∧ (master.Resize m ws w).2.files = w.files ∧
    (master.Resize m ws w).2.heap = w.heap := by
  unfold master.Resize
  rw [Fd_closed hcl]
  exact tcswinsz_badFd ws w

/-- What the methods of a console whose file is closed do. -/
theorem closed_console (cfmakeraw : Termios → Termios) {m : Console} {w : World}
    (hcl : (w.files (w.heap m).f).closed = true) :
    (∀ n, master.Read m n w = (([], 0, some Error.ErrClosed), w)) ∧
    (∀ b, master.Write m b w = ((0, some Error.ErrClosed), w)) ∧
    (∀ ws, (master.Resize m ws w).1 = some EBADF ∧
      (master.Resize m ws w).2.files = w.files ∧ (master.Resize m ws w).2.heap = w.heap) ∧
    (master.Size m w).2 = some EBADF ∧
    master.SetRaw cfmakeraw m w = (some EBADF, w) ∧
    master.DisableEcho m w = (some EBADF, w) ∧
    (∀ t, (w.heap m).original = some t →
      (master.Reset m w).1 = some EBADF ∧
      (master.Reset m w).2.files = w.files ∧ (master.Reset m w).2.heap = w.heap) ∧
    ((w.heap m).original = none → master.Reset m w = (none, w)) ∧
    (∀ c, ((master.Size c w).2 = none → (master.ResizeFrom m c w).1 = some EBADF) ∧
      (∀ e, (master.Size c w).2 = some e → (master.ResizeFrom m c w).1 = some e) ∧
      (master.ResizeFrom m c w).2.files = w.files ∧
      (master.ResizeFrom m c w).2.heap = w.heap) := by
  refine ⟨?_, ?_, ?_, ?_, ?_, ?_, ?_, ?_, ?_⟩
  · intro n
    simp [master.Read, File.Read, hcl]
  · intro b
    simp [master.Write, File.Write, hcl]
  · intro ws
    exact Resize_closed ws hcl
  · rw [Size_closed hcl]
  · simp [master.SetRaw, getCurrent_closed hcl]
  · simp [master.DisableEcho, getCurrent_closed hcl]
  · intro t ht
    unfold master.Reset
    rw [ht, Fd_closed hcl]
    exact tcset_badFd t w
  · intro h
    simp [master.Reset, h]
  · intro c
    unfold master.ResizeFrom
    cases hs : master.Size c w with
    | mk sz err =>
      cases err with
      | some e => simp
      | none =>
        dsimp only
        obtain ⟨h1, h2, h3⟩ := Resize_closed sz hcl
        exact ⟨fun _ => h1, fun e he => by simp at he, h2, h3⟩

/-- A window-size set keeps every file object a terminal or not, as it
was. -/
theorem setWinsize_term (fd : Nat) (u : Winsize) (w : World) (g : Nat) :
    ((IoctlSetWinsize fd u w).2.files g).term.isSome = (w.files g).term.isSome := by
  by_cases h : (IoctlSetWinsize fd u w).1 = none
  · obtain ⟨_, _, tm, ht, hw⟩ := setWinsize_ok h
    rw [hw]
    by_cases hg : g = fd
    · subst hg; simp [ht]
    · simp [Function.update_noteq hg]
  · rw [setWinsize_err h]

/-- An attribute set keeps every file object a terminal or not, as it
was. -/
theorem setTermios_term (fd : Nat) (t : Termios) (w : World) (g : Nat) :
    ((IoctlSetTermios fd t w).2.files g).term.isSome = (w.files g).term.isSome := by
  by_cases h : (IoctlSetTermios fd t w).1 = none
  · obtain ⟨_, _, tm, ht, hw⟩ := setTermios_ok h
    rw [hw]
    by_cases hg : g = fd
    · subst hg; simp [ht]
    · simp [Function.update_noteq hg]
  · rw [setTermios_err h]

theorem Read_frame (f : File) (n : Nat) (w : World) (g : Nat) :
    ((File.Read f n w).2.files g).term = (w.files g).term ∧
    ((File.Read f n w).2.files g).closed = (w.files g).closed := by
  unfold File.Read
  dsimp only
  split
  · exact ⟨rfl, rfl⟩
  · split
    · exact ⟨rfl, rfl⟩
    · split
      · exact ⟨rfl, rfl⟩
      · by_cases hg : g = f
        · subst hg; simp
        · simp [Function.update_noteq hg]

theorem Write_frame (f : File) (b : List Nat) (w : World) (g : Nat) :
    ((File.Write f b w).2.files g).term = (w.files g).term ∧
    ((File.Write f b w).2.files g).closed = (w.files g).closed := by
  unfold File.Write
  dsimp only
  split
  · exact ⟨rfl, rfl⟩
  · by_cases hg : g = f
    · subst hg; simp
    · simp [Function.update_noteq hg]

theorem Close_frame (f : File) (w : World) (g : Nat) :
    ((File.Close f w).2.files g).term = (w.files g).term ∧
    ((w.files g).closed = true → ((File.Close f w).2.files g).closed = true) := by
  unfold File.Close
  dsimp only
  split
  · exact ⟨rfl, fun h => h⟩
  · by_cases hg : g = f
    · subst hg; simp
    · simp [Function.update_noteq hg]

theorem tcset_files (fd : Nat) (t : Termios) (w : World) (g : Nat) :
    ((tcset fd t w).2.files g).term.isSome = (w.files g).term.isSome ∧
    ((w.files g).closed = true → ((tcset fd t w).2.files g).closed = true) :=
  ⟨setTermios_term fd t w g, fun h => by unfold tcset; rw [setTermios_closed]; exact h⟩

theorem Resize_files (m : Console) (ws : WinSize) (w : World) (g : Nat) :
    ((master.Resize m ws w).2.files g).term.isSome = (w.files g).term.isSome ∧
    ((w.files g).closed = true → ((master.Resize m ws w).2.files g).closed = true) :=
  ⟨setWinsize_term _ _ w g, fun h => by
    unfold master.Resize tcswinsz; rw [setWinsize_closed]; exact h⟩

theorem ResizeFrom_files (m c : Console) (w : World) (g : Nat) :
    ((master.ResizeFrom m c w).2.files g).term.isSome = (w.files g).term.isSome ∧
    ((w.files g).closed = true → ((master.ResizeFrom m c w).2.files g).closed = true) := by
  unfold master.ResizeFrom
  split
  · exact ⟨rfl, fun h => h⟩
  · exact Resize_files _ _ _ _

theorem Reset_files (m : Console) (w : World) (g : Nat) :
    ((master.Reset m w).2.files g).term.isSome = (w.files g).term.isSome ∧
    ((w.files g).closed = true → ((master.Reset m w).2.files g).closed = true) := by
  unfold master.Reset
  split
  · exact ⟨rfl, fun h => h⟩
  · exact tcset_files _ _ _ _

theorem SetRaw_files (cfmakeraw : Termios → Termios) (m : Console) (w : World) (g : Nat) :
    ((master.SetRaw cfmakeraw m w).2.files g).term.isSome = (w.files g).term.isSome ∧
    ((w.files g).closed = true → ((master.SetRaw cfmakeraw m w).2.files g).closed = true) := by
  unfold master.SetRaw
  split
  · exact ⟨rfl, fun h => h⟩
  · exact tcset_files _ _ _ _

theorem DisableEcho_files (m : Console) (w : World) (g : Nat) :
    ((master.DisableEcho m w).2.files g).term.isSome = (w.files g).term.isSome ∧
    ((w.files g).closed = true → ((master.DisableEcho m w).2.files g).closed = true) := by
  unfold master.DisableEcho
  split
  · exact ⟨rfl, fun h => h⟩
  · exact tcset_files _ _ _ _

/-- No call on any console turns a terminal into a non-terminal or back,
and no call reopens a closed file. -/
theorem exec_files (cfmakeraw : Termios → Termios) (r : Console) (c : Call) (w : World)
    (g : Nat) :
    ((c.exec cfmakeraw r w).2.files g).term.isSome = (w.files g).term.isSome ∧
    ((w.files g).closed = true → ((c.exec cfmakeraw r w).2.files g).closed = true) := by
  cases c with
  | Read n =>
    have h := Read_frame (w.heap r).f n w g
    have he : (Call.exec cfmakeraw r (Call.Read n) w).2 = (File.Read (w.heap r).f n w).2 := rfl
    rw [he, h.1, h.2]
    exact ⟨rfl, fun hc => hc⟩
  | Write b =>
    have h := Write_frame (w.heap r).f b w g
    have he : (Call.exec cfmakeraw r (Call.Write b) w).2 = (File.Write (w.heap r).f b w).2 := rfl
    rw [he, h.1, h.2]
    exact ⟨rfl, fun hc => hc⟩
  | Close =>
    have h := Close_frame (w.heap r).f w g
    have he : (Call.exec cfmakeraw r Call.Close w).2 = (File.Close (w.heap r).f w).2 := rfl
    rw [he, h.1]
    exact ⟨rfl, h.2⟩
  | Resize ws => exact Resize_files _ _ _ _
  | ResizeFrom c => exact ResizeFrom_files _ _ _ _
  | Reset => exact Reset_files _ _ _
  | SetRaw => exact SetRaw_files _ _ _ _
  | DisableEcho => exact DisableEcho_files _ _ _
  | Size => exact ⟨rfl, fun h => h⟩
  | Fd => exact ⟨rfl, fun h => h⟩
  | Name => exact ⟨rfl, fun h => h⟩

/-- A console on which the attribute read succeeds is on a terminal. -/
theorem term_of_getCurrent_ok {m : Console} {w : World}
    (h : (master.getCurrent m w).2 = none) :
    (w.files (w.heap m).f).term.isSome = true := by
  rw [getCurrent_eq] at h
  split at h
  · simp at h
  · cases ht : (w.files (w.heap m).f).term with
    | none => simp [ht] at h
    | some tm => rfl

/-- The size read of a constructed console fails with `EBADF` only. -/
theorem Size_constructed {c : Console} {w : World} (hc : constructed w c = true)
    (e : Error) (he : (master.Size c w).2 = some e) : e = EBADF := by
  unfold constructed at hc
  rw [Bool.and_eq_true] at hc
  rw [Size_eq] at he
  split at he
  · simp at he; exact he.symm
  · cases ht : (w.files (w.heap c).f).term with
    | none => rw [ht] at hc; simp at hc
    | some tm => simp [ht] at he

/-- C4: for every console `m` as the constructors build it (`newMaster`,
`NewPtyFromFile` and `NewPty` return only consoles with a saved attribute
block on a terminal file, and every call of a method on any console keeps
every console so and keeps every closed file closed): after `m.Close()`,
whatever it returned, the file of `m` is closed, and from then on `Read`
and `Write` return `ErrClosed` and leave the world as it was, `Size`
returns `EBADF`, `SetRaw` and `DisableEcho` return `EBADF` and leave the
world as it was, and `Resize`, `Reset` and `ResizeFrom(c)` (for every such
console `c`, open or closed) return `EBADF` and change neither a file
object (the terminal state) nor a `master` struct (the fields of the
console); `ErrClosed` and `EBADF` are the closed-handle errors. -/
theorem after_close_operations_fail (cfmakeraw : Termios → Termios) :
    (∀ (f : File) (w0 w1 : World) (m : Console),
      (newMaster f w0 = ((some m, none), w1) ∨
        (∃ slave, NewPtyFromFile f w0 = ((some m, slave, none), w1)) ∨
        (∃ slave, NewPty w0 = ((some m, slave, none), w1))) →
      constructed w1 m = true) ∧
    (∀ (r : Console) (call : Call) (w : World) (c : Console),
      (constructed w c = true → constructed (call.exec cfmakeraw r w).2 c = true) ∧
      ((w.files (w.heap c).f).closed = true →
        ((call.exec cfmakeraw r w).2.files ((call.exec cfmakeraw r w).2.heap c).f).closed
          = true)) ∧
    (∀ (m : Console) (w : World),
      ((master.Close m w).2.files ((master.Close m w).2.heap m).f).closed = true) ∧
    (Error.ErrClosed.isClosedHandle = true ∧ EBADF.isClosedHandle = true) ∧
    (∀ (m : Console) (w : World),
      constructed w m = true → (w.files (w.heap m).f).closed = true →
      (∀ n, master.Read m n w = (([], 0, some Error.ErrClosed), w)) ∧
      (∀ b, master.Write m b w = ((0, some Error.ErrClosed), w)) ∧
      (∀ ws, (master.Resize m ws w).1 = some EBADF ∧
        (master.Resize m ws w).2.files = w.files ∧ (master.Resize m ws w).2.heap = w.heap) ∧
      (master.Size m w).2 = some EBADF ∧
      master.SetRaw cfmakeraw m w = (some EBADF, w) ∧
      master.DisableEcho m w = (some EBADF, w) ∧
      ((master.Reset m w).1 = some EBADF ∧
        (master.Reset m w).2.files = w.files ∧ (master.Reset m w).2.heap = w.heap) ∧
      (∀ c, constructed w c = true →
        (master.ResizeFrom m c w).1 = some EBADF ∧
        (master.ResizeFrom m c w).2.files = w.files ∧
        (master.ResizeFrom m c w).2.heap = w.heap)) := by
  refine ⟨?_, ?_, Close_closes, ⟨by decide, by decide⟩, ?_⟩
  · intro f w0 w1 m h
    obtain ⟨g, w, hnew⟩ := constructed_by_newMaster h
    obtain ⟨t, hm, _, hg, _, _⟩ := newMaster_ok hnew
    unfold constructed
    rw [Bool.and_eq_true]
    exact ⟨by rw [hm]; rfl, term_of_getCurrent_ok (by rw [hg])⟩
  · intro r call w c
    have hh := exec_heap cfmakeraw r call w
    constructor
    · intro hc
      unfold constructed at hc ⊢
      rw [hh, (exec_files cfmakeraw r call w _).1]
      exact hc
    · intro hc
      rw [hh]
      exact (exec_files cfmakeraw r call w _).2 hc
  · intro m w hcons hcl
    obtain ⟨h1, h2, h3, h4, h5, h6, h7, _, h9⟩ := closed_console cfmakeraw hcl
    refine ⟨h1, h2, h3, h4, h5, h6, ?_, ?_⟩
    · have ho : (w.heap m).original.isSome = true := by
        unfold constructed at hcons
        rw [Bool.and_eq_true] at hcons
        exact hcons.1
      cases horig : (w.heap m).original with
      | none => rw [horig] at ho; simp at ho
      | some t => exact h7 t horig
    · intro c hc
      obtain ⟨hok, herr, hf, hh⟩ := h9 c
      refine ⟨?_, hf, hh⟩
      cases hs : (master.Size c w).2 with
      | none => exact hok hs
      | some e =>
        rw [herr e hs, Size_constructed hc e hs]

/-- C4, evaluated on the two consoles `NewPty` built in `world1` and
`world2`: both are as constructed; after `Close` of console 0 its file is closed and it is
still as constructed, and then `Resize`, `Size`, `Reset` and `ResizeFrom`
(from the open console 1 and from the closed console 0 itself) return
`EBADF`, `Read` returns `ErrClosed`, and the window size the kernel holds
for the file is the one it held before. -/
theorem after_close_operations_fail_witness :
    (constructed world1 0 = true ∧ constructed world2 1 = true ∧
      constructed world2 0 = true) ∧
    (master.Close 0 world2).1 = none ∧
    (constructed (master.Close 0 world2).2 0 = true ∧
      ((master.Close 0 world2).2.files ((master.Close 0 world2).2.heap 0).f).closed = true) ∧
    (master.Read 0 4 (master.Close 0 world2).2).1.2.2 = some Error.ErrClosed ∧
    (master.Resize 0 ⟨10, 11⟩ (master.Close 0 world2).2).1 = some EBADF ∧
    (master.Size 0 (master.Close 0 world2).2).2 = some EBADF ∧
    (master.Reset 0 (master.Close 0 world2).2).1 = some EBADF ∧
    ((master.Size 1 (master.Close 0 world2).2).2 = none ∧
      (master.ResizeFrom 0 1 (master.Close 0 world2).2).1 = some EBADF) ∧
    (master.ResizeFrom 0 0 (master.Close 0 world2).2).1 = some EBADF ∧
    (master.Resize 0 ⟨10, 11⟩ (master.Close 0 world2).2).2.files
      = (master.Close 0 world2).2.files :=
  have h := (after_close_operations_fail sampleRaw).2.2.2.2 0 (master.Close 0 world2).2
    (by decide) (by decide)
  ⟨⟨(after_close_operations_fail sampleRaw).1 0 world0 world1 0
      (Or.inr (Or.inr ⟨"/dev/pts/7", rfl⟩)),
    (after_close_operations_fail sampleRaw).1 0 world1 world2 1
      (Or.inr (Or.inr ⟨"/dev/pts/7", rfl⟩)),
    by decide⟩,
   by decide,
   ⟨((after_close_operations_fail sampleRaw).2.1 0 Call.Close world2 0).1 (by decide),
    (after_close_operations_fail sampleRaw).2.2.1 0 world2⟩,
   by rw [h.1 4],
   (h.2.2.1 ⟨10, 11⟩).1, h.2.2.2.1, h.2.2.2.2.2.2.1.1,
   ⟨by decide, (h.2.2.2.2.2.2.2 1 (by decide)).1⟩,
   (h.2.2.2.2.2.2.2 0 (by decide)).1,
   (h.2.2.1 ⟨10, 11⟩).2.1⟩

end PtyConsole
